import Mathlib

/-!
# Verification of the mensaviva spatial core

Shallow embedding of the repository's spatial indexing, caching, clustering
and marker-pool code, together with proofs and refutations of the frozen
claims about it.

Conventions of the embedding:
* JS numbers are modelled as rationals (`ℚ`); the code under scrutiny uses
  only comparisons, `+ - * /`, `Math.round`, `Math.floor`, `Math.min`,
  `Math.pow` with rational bases, so rationals are exact for every theorem
  below.  The Mercator projection `QuadTree.latLngToXY` (which uses
  `Math.log`/`Math.tan`) is transcendental and is abstracted as a function
  parameter `proj`; every theorem that involves it holds for an arbitrary
  projection.
* JS `Map`s are insertion-ordered association lists, JS `Set`s are
  insertion-ordered duplicate-free lists.
* The quadtree's recursion terminates in JS because `depth` grows towards
  `maxDepth`; the embedding makes this explicit with a fuel argument, and
  the theorems show that fuel `maxDepth + 1 - depth` suffices.
-/

/-! ## QuadTree (src QuadTree.js)

`Rect` is the `{x, y, width, height}` bounds object. -/

structure Rect where
  x : ℚ
  y : ℚ
  width : ℚ
  height : ℚ
deriving DecidableEq, Repr

/-- A quadtree point `{x, y, data}`; the payload type is a parameter
(the source stores arbitrary objects in `data`). -/
structure QPoint (α : Type) where
  x : ℚ
  y : ℚ
  data : α
deriving DecidableEq, Repr

/-- `QuadTree.contains(point)` of the source: half-open membership of the
point's coordinates in a bounds rectangle. -/
def Rect.containsPoint (b : Rect) (p : QPoint α) : Bool :=
  decide (b.x ≤ p.x ∧ p.x < b.x + b.width ∧ b.y ≤ p.y ∧ p.y < b.y + b.height)

/-- `QuadTree.pointInRange(point, range)` of the source; textually the same
comparisons as `contains`, against the query rectangle. -/
def QuadTree.pointInRange (p : QPoint α) (range : Rect) : Bool :=
  decide (range.x ≤ p.x ∧ p.x < range.x + range.width ∧
    range.y ≤ p.y ∧ p.y < range.y + range.height)

/-- `QuadTree.intersects(range)` of the source:
`!(range.x > x+w || range.x+range.w < x || range.y > y+h || range.y+range.h < y)`. -/
def Rect.intersects (b range : Rect) : Bool :=
  decide (¬ (b.x + b.width < range.x ∨ range.x + range.width < b.x ∨
    b.y + b.height < range.y ∨ range.y + range.height < b.y))

/-- The four quadrant rectangles produced by `subdivide()`. -/
def Rect.nwRect (b : Rect) : Rect := ⟨b.x, b.y, b.width / 2, b.height / 2⟩

def Rect.neRect (b : Rect) : Rect := ⟨b.x + b.width / 2, b.y, b.width / 2, b.height / 2⟩

def Rect.swRect (b : Rect) : Rect := ⟨b.x, b.y + b.height / 2, b.width / 2, b.height / 2⟩

def Rect.seRect (b : Rect) : Rect :=
  ⟨b.x + b.width / 2, b.y + b.height / 2, b.width / 2, b.height / 2⟩

/-- A quadtree node.  A JS node with `divided === false` is a `leaf` holding
its `points`; a node with `divided === true` has `points === []` (cleared by
`subdivide`) and four children, so the `node` constructor carries no point
list.  Fields mirror `bounds`, `capacity`, `maxDepth`, `depth`. -/
inductive QuadTree (α : Type) where
  | leaf (bounds : Rect) (capacity maxDepth depth : ℕ) (points : List (QPoint α))
  | node (bounds : Rect) (capacity maxDepth depth : ℕ) (nw ne sw se : QuadTree α)
deriving DecidableEq, Repr

def QuadTree.bounds : QuadTree α → Rect
  | .leaf b _ _ _ _ => b
  | .node b _ _ _ _ _ _ _ => b

def QuadTree.capacity : QuadTree α → ℕ
  | .leaf _ c _ _ _ => c
  | .node _ c _ _ _ _ _ _ => c

def QuadTree.maxDepth : QuadTree α → ℕ
  | .leaf _ _ m _ _ => m
  | .node _ _ m _ _ _ _ _ => m

def QuadTree.depth : QuadTree α → ℕ
  | .leaf _ _ _ d _ => d
  | .node _ _ _ d _ _ _ _ => d

/-- All points stored in the tree (the union of every node's `points`). -/
def QuadTree.stored : QuadTree α → List (QPoint α)
  | .leaf _ _ _ _ pts => pts
  | .node _ _ _ _ nw ne sw se => nw.stored ++ ne.stored ++ sw.stored ++ se.stored

/-- The four empty children created at the top of `subdivide()`. -/
def QuadTree.emptyChildren (b : Rect) (c m d : ℕ) : QuadTree α :=
  .node b c m d
    (.leaf b.nwRect c m (d + 1) []) (.leaf b.neRect c m (d + 1) [])
    (.leaf b.swRect c m (d + 1) []) (.leaf b.seRect c m (d + 1) [])

/-- `insertToChildren(point)`: try the children in the fixed order
northwest, northeast, southwest, southeast, short-circuiting on the first
child whose `insert` returns true.  The child-level insert function is a
parameter so that the recursion is on fuel only. -/
def QuadTree.insertToChildrenWith (ins : QuadTree α → QPoint α → QuadTree α × Bool) :
    QuadTree α → QPoint α → QuadTree α × Bool
  | .node b c m d nw ne sw se, p =>
    let r1 := ins nw p
    if r1.2 then (.node b c m d r1.1 ne sw se, true)
    else
      let r2 := ins ne p
      if r2.2 then (.node b c m d nw r2.1 sw se, true)
      else
        let r3 := ins sw p
        if r3.2 then (.node b c m d nw ne r3.1 se, true)
        else
          let r4 := ins se p
          (.node b c m d nw ne sw r4.1, r4.2)
  | t, _ => (t, false)

/-- The redistribution loop of `subdivide()`: every point of the former leaf
is pushed into the fresh children (the boolean result is discarded, as in
the source). -/
def QuadTree.redistributeWith (ins : QuadTree α → QPoint α → QuadTree α × Bool) :
    List (QPoint α) → QuadTree α → QuadTree α
  | [], t => t
  | q :: rest, t =>
    QuadTree.redistributeWith ins rest (QuadTree.insertToChildrenWith ins t q).1

/-- One level of `insert(point)`: bounds check, then either push into the
leaf (`points.length < capacity || depth >= maxDepth`), or subdivide and
fall through to `insertToChildren`. -/
def QuadTree.insertStep (ins : QuadTree α → QPoint α → QuadTree α × Bool) :
    QuadTree α → QPoint α → QuadTree α × Bool
  | .leaf b c m d pts, p =>
    if b.containsPoint p then
      if pts.length < c ∨ m ≤ d then (.leaf b c m d (pts ++ [p]), true)
      else
        QuadTree.insertToChildrenWith ins
          (QuadTree.redistributeWith ins pts (QuadTree.emptyChildren b c m d)) p
    else (.leaf b c m d pts, false)
  | .node b c m d nw ne sw se, p =>
    if b.containsPoint p then
      QuadTree.insertToChildrenWith ins (.node b c m d nw ne sw se) p
    else (.node b c m d nw ne sw se, false)

/-- `insert(point)`, with fuel making the depth-bounded recursion of the
source explicit.  Fuel `maxDepth + 1 - depth` is shown sufficient below. -/
def QuadTree.insert : ℕ → QuadTree α → QPoint α → QuadTree α × Bool
  | 0, t, _ => (t, false)
  | fuel + 1, t, p => QuadTree.insertStep (QuadTree.insert fuel) t p

/-- `query(range)`: prune on `intersects`, filter own points by
`pointInRange`, recurse into children. -/
def QuadTree.query : QuadTree α → Rect → List (QPoint α)
  | .leaf b _ _ _ pts, range =>
    if b.intersects range then pts.filter (fun p => QuadTree.pointInRange p range) else []
  | .node b _ _ _ nw ne sw se, range =>
    if b.intersects range then
      nw.query range ++ ne.query range ++ sw.query range ++ se.query range
    else []

/-- `clear()`: points emptied and `divided` reset, so any node collapses to
an empty leaf with the same bounds and parameters. -/
def QuadTree.clear : QuadTree α → QuadTree α
  | .leaf b c m d _ => .leaf b c m d []
  | .node b c m d _ _ _ _ => .leaf b c m d []

/-- Well-formedness of a quadtree as built by the source: stored points lie
inside their node's bounds, bounds have non-negative extent, children carry
the quadrant bounds, depth `d + 1` and the same `maxDepth`, and internal
nodes exist only above `maxDepth` (`subdivide` fires only when
`depth < maxDepth`). -/
inductive QuadTree.WF : QuadTree α → Prop
  | leaf {b : Rect} {c m d : ℕ} {pts : List (QPoint α)}
      (hw : 0 ≤ b.width) (hh : 0 ≤ b.height) (hdm : d ≤ m)
      (hpts : ∀ q ∈ pts, b.containsPoint q = true) :
      QuadTree.WF (.leaf b c m d pts)
  | node {b : Rect} {c m d : ℕ} {nw ne sw se : QuadTree α}
      (hw : 0 ≤ b.width) (hh : 0 ≤ b.height) (hdm : d < m)
      (hbnw : nw.bounds = b.nwRect) (hbne : ne.bounds = b.neRect)
      (hbsw : sw.bounds = b.swRect) (hbse : se.bounds = b.seRect)
      (hdnw : nw.depth = d + 1) (hdne : ne.depth = d + 1)
      (hdsw : sw.depth = d + 1) (hdse : se.depth = d + 1)
      (hmnw : nw.maxDepth = m) (hmne : ne.maxDepth = m)
      (hmsw : sw.maxDepth = m) (hmse : se.maxDepth = m)
      (hnw : QuadTree.WF nw) (hne : QuadTree.WF ne)
      (hsw : QuadTree.WF sw) (hse : QuadTree.WF se) :
      QuadTree.WF (.node b c m d nw ne sw se)

/-! ## LRU cache (src SpatialCacheManager.js, class LRUCache)

JS `Map`s preserve insertion order; `set` on an existing key keeps its
position.  Keys and values are opaque, modelled as naturals. -/

/-- JS `map.set(k, v)` on an insertion-ordered map. -/
def jsAssocSet [DecidableEq κ] (m : List (κ × β)) (k : κ) (v : β) : List (κ × β) :=
  if (m.lookup k).isSome then m.map (fun kv => if kv.1 = k then (k, v) else kv)
  else m ++ [(k, v)]

/-- JS `map.delete(k)`. -/
def jsAssocDelete [DecidableEq κ] (m : List (κ × β)) (k : κ) : List (κ × β) :=
  m.filter (fun kv => kv.1 ≠ k)

/-- The `LRUCache` fields: `capacity`, `cache` (a `Map`) and `accessOrder`
(an array of keys, least recently used first). -/
structure LRUCacheState where
  capacity : ℕ
  cache : List (ℕ × ℕ)
  accessOrder : List ℕ
deriving DecidableEq, Repr

/-- `updateAccessOrder(key)`: remove the key's occurrence if present
(`indexOf`/`splice`) and push it to the most-recently-used end. -/
def LRUCacheState.updateAccessOrder (s : LRUCacheState) (k : ℕ) : LRUCacheState :=
  { s with accessOrder := s.accessOrder.erase k ++ [k] }

/-- `get(key)`: `null` on a miss; on a hit, refresh the access order and
return the value. -/
def LRUCacheState.get (s : LRUCacheState) (k : ℕ) : Option ℕ × LRUCacheState :=
  match s.cache.lookup k with
  | none => (none, s)
  | some v => (some v, s.updateAccessOrder k)

/-- The eviction prelude of `set(key, value)`: when at capacity and the key
is new, `shift()` the least-recently-used key out of `accessOrder` and
delete it from the map (on an empty order, `shift()` yields `undefined` and
the delete is a no-op). -/
def LRUCacheState.evictIfFull (s : LRUCacheState) (k : ℕ) : LRUCacheState :=
  if s.capacity ≤ s.cache.length ∧ (s.cache.lookup k).isNone then
    match s.accessOrder with
    | [] => s
    | lru :: rest => { s with cache := jsAssocDelete s.cache lru, accessOrder := rest }
  else s

/-- The key that a `set(key, _)` would evict (the argument of the
`cache.delete` inside `set`), if any. -/
def LRUCacheState.evictedKey (s : LRUCacheState) (k : ℕ) : Option ℕ :=
  if s.capacity ≤ s.cache.length ∧ (s.cache.lookup k).isNone then s.accessOrder.head?
  else none

/-- `set(key, value)`. -/
def LRUCacheState.set (s : LRUCacheState) (k v : ℕ) : LRUCacheState :=
  let s1 := s.evictIfFull k
  LRUCacheState.updateAccessOrder { s1 with cache := jsAssocSet s1.cache k v } k

/-- A `get` or `set` call against the cache. -/
inductive LRUOp where
  | get (k : ℕ)
  | set (k v : ℕ)
deriving DecidableEq, Repr

def LRUCacheState.stepOp (s : LRUCacheState) : LRUOp → LRUCacheState
  | .get k => (s.get k).2
  | .set k v => s.set k v

/-- Which key an operation touches (moves to the MRU end): a `set` always
touches its key, a `get` touches its key only on a hit. -/
def LRUCacheState.touchOf (s : LRUCacheState) : LRUOp → Option ℕ
  | .get k => if (s.cache.lookup k).isSome then some k else none
  | .set k _ => some k

/-- Instrumented run: the cache state together with, for each key, the
index of the last operation that touched it. -/
structure LRUTrace where
  state : LRUCacheState
  lastTouches : List (ℕ × ℕ)
  clock : ℕ
deriving Repr

def LRUTrace.step (t : LRUTrace) (op : LRUOp) : LRUTrace :=
  { state := t.state.stepOp op,
    lastTouches :=
      match t.state.touchOf op with
      | some k => (k, t.clock) :: t.lastTouches
      | none => t.lastTouches,
    clock := t.clock + 1 }

def LRUTrace.init (cap : ℕ) : LRUTrace :=
  ⟨{ capacity := cap, cache := [], accessOrder := [] }, [], 0⟩

def LRUTrace.run (cap : ℕ) (ops : List LRUOp) : LRUTrace :=
  ops.foldl LRUTrace.step (LRUTrace.init cap)

/-- The time (operation index) at which a key was last touched. -/
def lastTouchTime (lt : List (ℕ × ℕ)) (k : ℕ) : ℕ :=
  (lt.lookup k).getD 0

/-! ## Region keys (src SpatialCacheManager.js, generateRegionKey) -/

/-- A `{south, north, west, east}` geographic bounding box. -/
structure GeoBounds where
  south : ℚ
  west : ℚ
  north : ℚ
  east : ℚ
deriving DecidableEq, Repr

/-- JS `Math.round`: round half away from zero upwards, i.e. `⌊q + 1/2⌋`
(this matches `Math.round(-0.5) = 0`). -/
def jsRound (q : ℚ) : ℤ := ⌊q + 1 / 2⌋

/-- The data of the region key string
"`${south},${west},${north},${east}:${zoom}`".  JS number-to-string
rendering is injective and the separators make the concatenation injective
in the five components, so key equality is equality of this record. -/
structure RegionKey where
  south : ℚ
  west : ℚ
  north : ℚ
  east : ℚ
  zoom : ℤ
deriving DecidableEq, Repr

/-- `precision = Math.pow(10, Math.min(zoom - minZoom, 5))`. -/
def regionPrecision (minZoom zoom : ℤ) : ℚ :=
  (10 : ℚ) ^ (min (zoom - minZoom) 5)

/-- `generateRegionKey(bounds, zoom)`: each coordinate replaced by
`Math.round(c * precision) / precision`. -/
def SpatialCacheManager.generateRegionKey (minZoom : ℤ) (bounds : GeoBounds) (zoom : ℤ) :
    RegionKey :=
  let precision := regionPrecision minZoom zoom
  { south := (jsRound (bounds.south * precision) : ℚ) / precision,
    west := (jsRound (bounds.west * precision) : ℚ) / precision,
    north := (jsRound (bounds.north * precision) : ℚ) / precision,
    east := (jsRound (bounds.east * precision) : ℚ) / precision,
    zoom := zoom }

/-- The spacing of the quantization grid used by `generateRegionKey` at a
given zoom: the distance between adjacent representable rounded values. -/
def regionQuantStep (minZoom zoom : ℤ) : ℚ :=
  1 / regionPrecision minZoom zoom

/-! ## SmartCacheLayer (src SmartCacheLayer.js) -/

/-- The configuration a `SmartCacheLayer` hands to each per-band
`SpatialCacheManager` it constructs. -/
structure SCMConfig where
  cacheSize : ℕ
  minZoom : ℕ
  maxZoom : ℕ
deriving DecidableEq, Repr

/-- One `{timestamp, zoom}` region-access record. -/
structure AccessRecord where
  timestamp : ℚ
  zoom : ℕ
deriving DecidableEq, Repr

structure SmartCacheOptions where
  minZoom : ℕ
  maxZoom : ℕ
  zoomLevelGrouping : ℕ
  maxRegionsPerZoom : ℕ
  popularityWindow : ℚ
  popularityThreshold : ℕ
deriving Repr

def SmartCacheLayer.defaultOptions : SmartCacheOptions :=
  { minZoom := 10, maxZoom := 19, zoomLevelGrouping := 2, maxRegionsPerZoom := 50,
    popularityWindow := 24 * 60 * 60 * 1000, popularityThreshold := 5 }

/-- `initializeZoomLevelCaches()`: `ceil((maxZoom - minZoom + 1) / grouping)`
groups, each keyed by its band's lowest zoom and owning a
`SpatialCacheManager`. -/
def SmartCacheLayer.initializeZoomLevelCaches (o : SmartCacheOptions) :
    List (ℕ × SCMConfig) :=
  let numGroups := (o.maxZoom - o.minZoom + 1 + o.zoomLevelGrouping - 1) / o.zoomLevelGrouping
  (List.range numGroups).map (fun i =>
    let mz := o.minZoom + i * o.zoomLevelGrouping
    (mz, { cacheSize := o.maxRegionsPerZoom, minZoom := mz,
           maxZoom := min (mz + o.zoomLevelGrouping - 1) o.maxZoom }))

/-- The `SmartCacheLayer` state relevant to pruning: its per-band caches and
the region-access log. -/
structure SmartCacheState where
  zoomLevelCaches : List (ℕ × SCMConfig)
  regionAccess : List (RegionKey × List AccessRecord)
deriving DecidableEq, Repr

def SmartCacheLayer.initState (o : SmartCacheOptions) : SmartCacheState :=
  { zoomLevelCaches := SmartCacheLayer.initializeZoomLevelCaches o, regionAccess := [] }

/-- `calculatePopularity(regionKey)`: the number of access records inside
the trailing popularity window. -/
def SmartCacheLayer.calculatePopularity (o : SmartCacheOptions) (s : SmartCacheState)
    (key : RegionKey) (now : ℚ) : ℕ :=
  (((s.regionAccess.lookup key).getD []).filter
    (fun a => decide (now - o.popularityWindow ≤ a.timestamp))).length

/-- `pruneCache()`.  The first loop drops out-of-window access records and
deletes emptied log entries.  The second loop does
`const regions = cache.getRegions()` on each per-band cache — but the
`SpatialCacheManager` class (src SpatialCacheManager.js) declares only
`generateRegionKey`, `needsUpdate`, `updateViewportFrequency`,
`getRestaurantsInViewport`, `addRestaurants` and `clear`; it has no
`getRegions` (nor `removeRegion`) method, so the property access yields
`undefined` and the call raises a `TypeError` on the first iteration.  The
embedding returns that error whenever at least one per-band cache exists. -/
def SmartCacheLayer.pruneCache (o : SmartCacheOptions) (s : SmartCacheState) (now : ℚ) :
    Except String SmartCacheState :=
  let cutoff := now - o.popularityWindow
  let ra :=
    (s.regionAccess.map (fun ka =>
      (ka.1, ka.2.filter (fun a => decide (cutoff ≤ a.timestamp))))).filter
      (fun ka => ¬ ka.2.isEmpty)
  match s.zoomLevelCaches with
  | [] => .ok { s with regionAccess := ra }
  | _ :: _ => .error "TypeError: cache.getRegions is not a function"

/-! ## ClusterManager (src ClusterManager.js)

The manager projects points with `QuadTree.latLngToXY` before inserting
them into its scratch quadtree; the projection is abstracted as `proj`. -/

/-- A candidate point `{id, lat, lng, weight?}` handed to the cluster
engine. -/
structure RPoint where
  id : ℕ
  lat : ℚ
  lng : ℚ
  weight : Option ℚ
deriving DecidableEq, Repr

/-- Keys of the `clusters` map: the generated string `cluster_${n}` for
real clusters, the point's own id for unclustered singletons. -/
inductive ClusterId where
  | generated (n : ℕ)
  | single (pid : ℕ)
deriving DecidableEq, Repr

/-- `{south, north, west, east}` cluster bounds. -/
structure ClusterSpan where
  south : ℚ
  north : ℚ
  west : ℚ
  east : ℚ
deriving DecidableEq, Repr

/-- A cluster record.  Singleton entries (`isCluster: false`) carry no
`count` and no `bounds` field in the source, modelled as `none`. -/
structure Cluster where
  id : ClusterId
  position : ℚ × ℚ
  points : List RPoint
  isCluster : Bool
  count : Option ℕ
  bounds : Option ClusterSpan
deriving DecidableEq, Repr

structure ClusterOptions where
  minZoom : ℕ
  maxZoom : ℕ
  clusterRadius : ℚ
  transitionDuration : ℚ
  zoomThreshold : ℕ
  minClusterSize : ℕ
  maxClusters : ℕ
deriving Repr

def ClusterManager.defaultOptions : ClusterOptions :=
  { minZoom := 10, maxZoom := 19, clusterRadius := 80, transitionDuration := 300,
    zoomThreshold := 16, minClusterSize := 2, maxClusters := 100 }

/-- JS `p.weight || 1` (absent and zero weights both fall back to 1). -/
def jsWeightOr1 : Option ℚ → ℚ
  | none => 1
  | some q => if q = 0 then 1 else q

/-- `calculateClusterBounds(points)`: min/max folds.  The source seeds the
reduce with infinities; for the nonempty member lists produced by
`findClusters` this equals folding from the first point. -/
def ClusterManager.calculateClusterBounds : List RPoint → Option ClusterSpan
  | [] => none
  | p :: rest =>
    some (rest.foldl
      (fun sp q =>
        { south := min sp.south q.lat, north := max sp.north q.lat,
          west := min sp.west q.lng, east := max sp.east q.lng })
      { south := p.lat, north := p.lat, west := p.lng, east := p.lng })

/-- `createCluster(id, points)`: weight-averaged centroid, member list,
`count`, bounds. -/
def ClusterManager.createCluster (id : ClusterId) (points : List RPoint) : Cluster :=
  let center := points.foldl
    (fun acc p =>
      let w := jsWeightOr1 p.weight
      (acc.1 + p.lat * w, acc.2.1 + p.lng * w, acc.2.2 + w))
    ((0 : ℚ), (0 : ℚ), (0 : ℚ))
  { id := id,
    position := (center.1 / center.2.2, center.2.1 / center.2.2),
    points := points,
    isCluster := true,
    count := some points.length,
    bounds := ClusterManager.calculateClusterBounds points }

/-- `findNeighbors(point, radius)`: square query around the projected
center with half-side `radius / 256 / 2^maxZoom`, excluding the point
itself by id. -/
def ClusterManager.findNeighbors (proj : ℚ → ℚ → ℚ × ℚ) (maxZoom : ℕ)
    (qt : QuadTree RPoint) (p : RPoint) (radius : ℚ) : List RPoint :=
  let center := proj p.lat p.lng
  let r := radius / 256 / (2 : ℚ) ^ maxZoom
  ((qt.query ⟨center.1 - r, center.2 - r, r * 2, r * 2⟩).map (fun q => q.data)).filter
    (fun q => q.id ≠ p.id)

/-- Local density of a point: its neighbour count within the radius. -/
def ClusterManager.densityOf (proj : ℚ → ℚ → ℚ × ℚ) (maxZoom : ℕ)
    (qt : QuadTree RPoint) (radius : ℚ) (p : RPoint) : ℕ :=
  (ClusterManager.findNeighbors proj maxZoom qt p radius).length

/-- Stable descending insertion of `p` into a list already sorted by a
density key: `p` precedes the first element whose key is not larger.  This
is the order produced by the stable JS `sort((a, b) => d(b) - d(a))`. -/
def insertDescBy (f : RPoint → ℕ) (p : RPoint) : List RPoint → List RPoint
  | [] => [p]
  | q :: rest => if f p < f q then q :: insertDescBy f p rest else p :: q :: rest

/-- `sortByDensity(points, radius)`: stable sort, densest first. -/
def ClusterManager.sortByDensity (proj : ℚ → ℚ → ℚ × ℚ) (maxZoom : ℕ)
    (qt : QuadTree RPoint) (points : List RPoint) (radius : ℚ) : List RPoint :=
  points.foldr (insertDescBy (ClusterManager.densityOf proj maxZoom qt radius)) []

/-- The greedy loop of `findClusters`: skip processed points; a point with
at least `minClusterSize` neighbours makes a cluster **from its neighbours
only** (the `id !==` filter removed the point itself, and only the
neighbours are marked processed); otherwise the point is emitted as a
singleton keyed by its own id.  The `clusters` map is kept as an
insertion-ordered list (input ids are distinct, so keys never collide). -/
def ClusterManager.findClustersLoop (proj : ℚ → ℚ → ℚ × ℚ) (maxZoom minCS : ℕ)
    (qt : QuadTree RPoint) (radius : ℚ) :
    List RPoint → List ℕ → ℕ → List Cluster
  | [], _, _ => []
  | p :: rest, processed, cid =>
    if p.id ∈ processed then
      ClusterManager.findClustersLoop proj maxZoom minCS qt radius rest processed cid
    else
      let nbrs := ClusterManager.findNeighbors proj maxZoom qt p radius
      if minCS ≤ nbrs.length then
        ClusterManager.createCluster (.generated cid) nbrs ::
          ClusterManager.findClustersLoop proj maxZoom minCS qt radius rest
            (processed ++ nbrs.map (fun q => q.id)) (cid + 1)
      else
        { id := .single p.id, position := (p.lat, p.lng), points := [p],
          isCluster := false, count := none, bounds := none } ::
          ClusterManager.findClustersLoop proj maxZoom minCS qt radius rest
            (processed ++ [p.id]) cid

/-- `findClusters(points, radius, bounds)` (the `bounds` argument is unused
in the source body). -/
def ClusterManager.findClusters (proj : ℚ → ℚ → ℚ × ℚ) (maxZoom minCS : ℕ)
    (qt : QuadTree RPoint) (points : List RPoint) (radius : ℚ) : List Cluster :=
  ClusterManager.findClustersLoop proj maxZoom minCS qt radius
    (ClusterManager.sortByDensity proj maxZoom qt points radius) [] 0

/-- A transition record; the source's `end` field is `endPos` here (`end`
is reserved in Lean). -/
structure ClusterTransition where
  id : ClusterId
  start : ℚ × ℚ
  endPos : ℚ × ℚ
  startTime : ℚ
  duration : ℚ
  cluster : Cluster
deriving DecidableEq, Repr

/-- `needsTransition(previous, current)`: centroid coordinate or `count`
differs. -/
def ClusterManager.needsTransition (previous current : Cluster) : Bool :=
  decide (previous.position.1 ≠ current.position.1 ∨
    previous.position.2 ≠ current.position.2 ∨ previous.count ≠ current.count)

/-- `updateTransitions(newClusters)`: clear, then record a transition for
every new cluster whose id has a previous entry that `needsTransition`. -/
def ClusterManager.updateTransitions (o : ClusterOptions) (now : ℚ)
    (prev newClusters : List (ClusterId × Cluster)) :
    List (ClusterId × ClusterTransition) :=
  newClusters.filterMap (fun ic =>
    match prev.lookup ic.1 with
    | none => none
    | some pc =>
      if ClusterManager.needsTransition pc ic.2 then
        some (ic.1,
          { id := ic.1, start := pc.position, endPos := ic.2.position,
            startTime := now, duration := o.transitionDuration, cluster := ic.2 })
      else none)

/-- `processPointsWithoutClustering(points)`: one singleton per point. -/
def ClusterManager.processPointsWithoutClustering (points : List RPoint) :
    List (ClusterId × Cluster) :=
  points.map (fun p =>
    (.single p.id,
     { id := .single p.id, position := (p.lat, p.lng), points := [p],
       isCluster := false, count := none, bounds := none }))

/-- `calculateClusterRadius(zoom) = clusterRadius * 0.8^(zoom - minZoom)`. -/
def ClusterManager.calculateClusterRadius (o : ClusterOptions) (zoom : ℕ) : ℚ :=
  o.clusterRadius * (4 / 5 : ℚ) ^ ((zoom : ℤ) - (o.minZoom : ℤ))

/-- The mutable fields of a `ClusterManager` (metrics, which only gather
timing/size statistics, are not modelled). -/
structure CMState where
  clusters : List (ClusterId × Cluster)
  previousClusters : List (ClusterId × Cluster)
  transitions : List (ClusterId × ClusterTransition)
  quadtree : QuadTree RPoint
deriving Repr

/-- The constructed manager: empty maps and a unit-square quadtree with the
default capacity 4 and maxDepth 8. -/
def ClusterManager.initState : CMState :=
  { clusters := [], previousClusters := [], transitions := [],
    quadtree := .leaf ⟨0, 0, 1, 1⟩ 4 8 0 [] }

/-- The result object `{clusters, transitions}` of `calculateClusters`. -/
structure ClusterResult where
  clusters : List Cluster
  transitions : List ClusterTransition
deriving DecidableEq, Repr

/-- `calculateClusters(points, zoom, bounds)`.  Mirrors the source order:
snapshot `previousClusters` from `this.clusters`, clear `this.clusters` and
the quadtree; at `zoom >= zoomThreshold` return pass-through singletons
(leaving `this.transitions` untouched and reporting none); otherwise insert
the projected points (root fuel 9 = maxDepth 8 + 1), compute the radius,
find clusters and rebuild the transitions.  Note that the source never
stores the freshly computed clusters back into `this.clusters`. -/
def ClusterManager.calculateClusters (o : ClusterOptions) (proj : ℚ → ℚ → ℚ × ℚ)
    (st : CMState) (points : List RPoint) (zoom : ℕ) (now : ℚ) :
    CMState × ClusterResult :=
  let prev := st.clusters
  let qt0 := st.quadtree.clear
  if o.zoomThreshold ≤ zoom then
    ({ st with clusters := [], previousClusters := prev, quadtree := qt0 },
     { clusters := (ClusterManager.processPointsWithoutClustering points).map
         (fun ic => ic.2),
       transitions := [] })
  else
    let qt := points.foldl
      (fun t p =>
        let c := proj p.lat p.lng
        (t.insert 9 ⟨c.1, c.2, p⟩).1)
      qt0
    let radius := ClusterManager.calculateClusterRadius o zoom
    let cls := ClusterManager.findClusters proj o.maxZoom o.minClusterSize qt points radius
    let clsMap := cls.map (fun c => (c.id, c))
    let trans := ClusterManager.updateTransitions o now prev clsMap
    ({ clusters := [], previousClusters := prev, transitions := trans, quadtree := qt },
     { clusters := cls, transitions := trans.map (fun it => it.2) })

/-! ## VirtualMarkerPool (src VirtualMarkerPool.js) -/

structure VMPOptions where
  poolSize : ℕ
  growthFactor : ℚ
  recycleThreshold : ℚ
  batchSize : ℕ
deriving Repr

def VirtualMarkerPool.defaultOptions : VMPOptions :=
  { poolSize := 1000, growthFactor := 3 / 2, recycleThreshold := 3 / 10, batchSize := 50 }

/-- `getMarkerIcon` result (`type` is `kind` here; `type` is reserved). -/
structure MarkerIcon where
  kind : String
  hasReviews : Bool
  ratings : Option ℚ
deriving DecidableEq, Repr

/-- The virtual-marker props record. -/
structure VProps where
  title : String
  amenity : Option String
  hasReviews : Bool
  ratings : Option ℚ
  icon : MarkerIcon
deriving DecidableEq, Repr

/-- A virtual marker: desired `{position, props}` for one entity. -/
structure VMarker where
  position : ℚ × ℚ
  props : VProps
deriving DecidableEq, Repr

/-- A pooled marker's `state` field. -/
structure MarkerState where
  position : Option (ℚ × ℚ)
  visible : Bool
  props : Option VProps
deriving DecidableEq, Repr

/-- The entity payload consumed by the pool.  `reviewsCount` stands for
`reviews?.length` (only the length is read) and `ratings` for the opaque
ratings object (`ratings || {}` collapses the absent case). -/
structure Restaurant where
  id : ℕ
  name : String
  amenity : Option String
  lat : ℚ
  lng : ℚ
  reviewsCount : ℕ
  ratings : Option ℚ
deriving DecidableEq, Repr

/-- `getMarkerIcon(restaurant)`. -/
def VirtualMarkerPool.getMarkerIcon (r : Restaurant) : MarkerIcon :=
  { kind := r.amenity.getD "restaurant",
    hasReviews := decide (0 < r.reviewsCount),
    ratings := r.ratings }

/-- The virtual marker built for a restaurant inside
`updateVirtualMarkers`. -/
def VirtualMarkerPool.buildVirtualMarker (r : Restaurant) : VMarker :=
  { position := (r.lat, r.lng),
    props :=
      { title := r.name, amenity := r.amenity,
        hasReviews := decide (0 < r.reviewsCount), ratings := r.ratings,
        icon := VirtualMarkerPool.getMarkerIcon r } }

/-- `needsUpdate(existing, next)`: positional difference, or any of the
five props keys differing (JSON.stringify comparison is structural equality
on these value types). -/
def VirtualMarkerPool.needsUpdate (existing next : VMarker) : Bool :=
  decide (existing.position.1 ≠ next.position.1 ∨
    existing.position.2 ≠ next.position.2 ∨
    existing.props.title ≠ next.props.title ∨
    existing.props.amenity ≠ next.props.amenity ∨
    existing.props.hasReviews ≠ next.props.hasReviews ∨
    existing.props.ratings ≠ next.props.ratings ∨
    existing.props.icon ≠ next.props.icon)

/-- The pool's mutable fields.  Markers are identified by the numeric part
of their `marker_${metrics.created}` id; `markerStates` maps a marker id to
its (shared) `state` object, so rebinding the same pooled marker to two
entities aliases one state record, as in the source. -/
structure VMPState where
  opts : VMPOptions
  created : ℕ
  markerPool : List ℕ
  activeMarkers : List (ℕ × ℕ)
  recycledMarkers : List ℕ
  markerStates : List (ℕ × MarkerState)
  virtualMarkers : List (ℕ × VMarker)
  pendingUpdates : List (ℕ × VMarker)
deriving Repr

def VirtualMarkerPool.initState (o : VMPOptions) : VMPState :=
  { opts := o, created := 0, markerPool := [], activeMarkers := [],
    recycledMarkers := [], markerStates := [], virtualMarkers := [],
    pendingUpdates := [] }

/-- `createMarker()`: a fresh marker (null element, invisible state) is put
into the pool map **and into the recycled set**, and returned. -/
def VirtualMarkerPool.createMarker (s : VMPState) : ℕ × VMPState :=
  let mid := s.created
  (mid,
   { s with
     created := s.created + 1,
     markerPool := s.markerPool ++ [mid],
     recycledMarkers := s.recycledMarkers ++ [mid],
     markerStates := s.markerStates ++ [(mid, { position := none, visible := false, props := none })] })

/-- `growPool(count)`: `count` markers are created; the
`requestAnimationFrame` batching only spreads the same creations over
frames and is collapsed here. -/
def VirtualMarkerPool.growPool (s : VMPState) (count : ℕ) : VMPState :=
  (List.range count).foldl (fun st _ => (VirtualMarkerPool.createMarker st).2) s

/-- `acquireMarker()`: pop the first recycled marker if any (Set iteration
order is insertion order); otherwise grow the pool when occupancy is at
least `(1 - recycleThreshold) * poolSize` and create a fresh marker — which
`createMarker` has just also placed into the recycled set. -/
def VirtualMarkerPool.acquireMarker (s : VMPState) : ℕ × VMPState :=
  match s.recycledMarkers with
  | m :: rest => (m, { s with recycledMarkers := rest })
  | [] =>
    let s1 :=
      if (s.markerPool.length : ℚ) * (1 - s.opts.recycleThreshold) ≤
          (s.activeMarkers.length : ℚ) then
        VirtualMarkerPool.growPool s
          (Int.toNat ⌊(s.markerPool.length : ℚ) * (s.opts.growthFactor - 1)⌋)
      else s
    VirtualMarkerPool.createMarker s1

/-- `updateMarker(id, virtualMarker)`: take the entity's active marker or
acquire one, then overwrite the marker's state. -/
def VirtualMarkerPool.updateMarker (s : VMPState) (id : ℕ) (vm : VMarker) : VMPState :=
  let ms : ℕ × VMPState :=
    match s.activeMarkers.lookup id with
    | some m => (m, s)
    | none =>
      let r := VirtualMarkerPool.acquireMarker s
      (r.1, { r.2 with activeMarkers := r.2.activeMarkers ++ [(id, r.1)] })
  { ms.2 with
    markerStates := jsAssocSet ms.2.markerStates ms.1
      { position := some vm.position, visible := true, props := some vm.props } }

/-- `removeMarker(id)`: if the entity has an active marker, flag its state
invisible, drop the entity from the active map and add the marker to the
recycled set. -/
def VirtualMarkerPool.removeMarker (s : VMPState) (id : ℕ) : VMPState :=
  match s.activeMarkers.lookup id with
  | none => s
  | some m =>
    let old := (s.markerStates.lookup m).getD { position := none, visible := false, props := none }
    { s with
      markerStates := jsAssocSet s.markerStates m { old with visible := false },
      activeMarkers := s.activeMarkers.filter (fun kv => kv.1 ≠ id),
      recycledMarkers :=
        if m ∈ s.recycledMarkers then s.recycledMarkers else s.recycledMarkers ++ [m] }

/-- `updateVirtualMarkers(restaurants)`: build the fresh virtual map,
queue an update for every entity that is new or `needsUpdate`, remove
entities that disappeared, then replace `virtualMarkers` and
`pendingUpdates`. -/
def VirtualMarkerPool.updateVirtualMarkers (s : VMPState) (restaurants : List Restaurant) :
    VMPState :=
  let nv := restaurants.foldl
    (fun (acc : List (ℕ × VMarker) × List (ℕ × VMarker)) r =>
      let vm := VirtualMarkerPool.buildVirtualMarker r
      let queued :=
        match s.virtualMarkers.lookup r.id with
        | none => true
        | some existing => VirtualMarkerPool.needsUpdate existing vm
      (acc.1 ++ [(r.id, vm)], if queued then acc.2 ++ [(r.id, vm)] else acc.2))
    ([], [])
  let s1 := s.virtualMarkers.foldl
    (fun st kv => if (nv.1.lookup kv.1).isSome then st else VirtualMarkerPool.removeMarker st kv.1)
    s
  { s1 with virtualMarkers := nv.1, pendingUpdates := nv.2 }

/-- `applyUpdates()`: apply every pending update (the frame batching only
spreads the same `updateMarker` calls over ticks), then clear the queue. -/
def VirtualMarkerPool.applyUpdates (s : VMPState) : VMPState :=
  let s1 := s.pendingUpdates.foldl (fun st kv => VirtualMarkerPool.updateMarker st kv.1 kv.2) s
  { s1 with pendingUpdates := [] }

/-- One full update cycle: diff, then apply. -/
def VirtualMarkerPool.cycle (s : VMPState) (restaurants : List Restaurant) : VMPState :=
  VirtualMarkerPool.applyUpdates (VirtualMarkerPool.updateVirtualMarkers s restaurants)

/-! ## ViewportOptimizer (src ViewportOptimizer.js) -/

/-- A viewport `{south, north, west, east, zoom}`. -/
structure Viewport where
  south : ℚ
  north : ℚ
  west : ℚ
  east : ℚ
  zoom : ℕ
deriving DecidableEq, Repr

/-- A candidate marker as consumed by the optimizer. -/
structure VOMarker where
  id : ℕ
  lat : ℚ
  lng : ℚ
  reviewsCount : ℕ
  ratingsAvg : Option ℚ
  amenity : Option String
deriving DecidableEq, Repr

/-- `isInBounds(marker, bounds)`: closed containment of the marker's
coordinates. -/
def ViewportOptimizer.isInBounds (m : VOMarker) (b : Viewport) : Bool :=
  decide (b.south ≤ m.lat ∧ m.lat ≤ b.north ∧ b.west ≤ m.lng ∧ m.lng ≤ b.east)

/-- `calculatePreloadViewport(viewport)`: expand by
`preloadMargin * span` on each side. -/
def ViewportOptimizer.calculatePreloadViewport (preloadMargin : ℚ) (v : Viewport) : Viewport :=
  { south := v.south - (v.north - v.south) * preloadMargin,
    north := v.north + (v.north - v.south) * preloadMargin,
    west := v.west - (v.east - v.west) * preloadMargin,
    east := v.east + (v.east - v.west) * preloadMargin,
    zoom := v.zoom }

/-- `getMaxMarkersForZoom(zoom)` with the default
`{10: 100, 13: 200, 15: 500, 17: 1000}` table: scan the thresholds from the
highest down, falling back to the lowest budget. -/
def ViewportOptimizer.getMaxMarkersForZoom (zoom : ℕ) : ℕ :=
  if 17 ≤ zoom then 1000
  else if 15 ≤ zoom then 500
  else if 13 ≤ zoom then 200
  else if 10 ≤ zoom then 100
  else 100

/-- `calculateMarkerWeight(marker)`: review bonus (capped at 2), rating
bonus, category bonus. -/
def ViewportOptimizer.calculateMarkerWeight (m : VOMarker) : ℚ :=
  let w1 : ℚ := 1
  let w2 := w1 + (if 0 < m.reviewsCount then min ((m.reviewsCount : ℚ) * (1 / 5)) 2 else 0)
  let w3 := w2 +
    (match m.ratingsAvg with
     | some a => if 4 < a then 1 / 2 else 0
     | none => 0)
  w3 + (if m.amenity = some "restaurant" ∨ m.amenity = some "cafe" then 3 / 10 else 0)

/-- The optimizer's mutable fields relevant to the partition claim. -/
structure VOState where
  currentViewport : Viewport
  preloadViewport : Viewport
  visibleMarkers : List ℕ
  preloadedMarkers : List ℕ
deriving DecidableEq, Repr

/-- `filterVisibleMarkers(markers)`: inside the current viewport. -/
def ViewportOptimizer.filterVisibleMarkers (st : VOState) (markers : List VOMarker) :
    List VOMarker :=
  markers.filter (fun m => ViewportOptimizer.isInBounds m st.currentViewport)

/-- `filterPreloadMarkers(markers)`: not in `this.visibleMarkers` (the set
as it stands **when the filter runs**) and inside the preload viewport. -/
def ViewportOptimizer.filterPreloadMarkers (st : VOState) (markers : List VOMarker) :
    List VOMarker :=
  markers.filter (fun m =>
    decide (m.id ∉ st.visibleMarkers) && ViewportOptimizer.isInBounds m st.preloadViewport)

/-- `optimizeMarkerDensity(markers)`: pass the list through when it fits
the zoom budget.  The over-budget branch (scratch quadtree, grid density
samples, weight-scored top-N selection) is abstracted as the
`densitySelect` parameter; the theorems below never enter it. -/
def ViewportOptimizer.optimizeMarkerDensity (densitySelect : List VOMarker → List VOMarker)
    (zoom : ℕ) (markers : List VOMarker) : List VOMarker :=
  if markers.length ≤ ViewportOptimizer.getMaxMarkersForZoom zoom then markers
  else densitySelect markers

/-- JS `set.add` over a list of ids. -/
def jsSetAddAll (s : List ℕ) (ids : List ℕ) : List ℕ :=
  ids.foldl (fun l i => if i ∈ l then l else l ++ [i]) s

/-- `processViewportUpdate(markers)`: clear both id sets, filter visible
then preload candidates (the preload filter therefore reads the **cleared**
visible set), apply the density cap, then `updateMarkerVisibility` fills
the two id sets.  Rendering calls into the external `MarkerManager` and the
`cleanupMarkers` sweep over it are outside this state. -/
def ViewportOptimizer.processViewportUpdate (densitySelect : List VOMarker → List VOMarker)
    (st : VOState) (markers : List VOMarker) : VOState :=
  let st1 := { st with visibleMarkers := [], preloadedMarkers := [] }
  let visible := ViewportOptimizer.filterVisibleMarkers st1 markers
  let preload := ViewportOptimizer.filterPreloadMarkers st1 markers
  let optimized := ViewportOptimizer.optimizeMarkerDensity densitySelect
    st1.currentViewport.zoom visible
  { st1 with
    visibleMarkers := jsSetAddAll [] (optimized.map (fun m => m.id)),
    preloadedMarkers := jsSetAddAll [] (preload.map (fun m => m.id)) }

/-- `updateViewport` state setup: store the viewport and its preload
expansion (the debounce timer only defers the same
`processViewportUpdate`). -/
def ViewportOptimizer.setViewport (preloadMargin : ℚ) (v : Viewport) (st : VOState) : VOState :=
  { st with currentViewport := v,
            preloadViewport := ViewportOptimizer.calculatePreloadViewport preloadMargin v }

/-! ## Concrete inputs used by the claim theorems -/

/-- A concrete stand-in projection used to instantiate the abstracted
Mercator projection in counterexample runs: it maps the latitudes used
below into the unit square. -/
def clusterProjStub : ℚ → ℚ → ℚ × ℚ := fun la _ => (la / 4, la / 4)

/-- Three coincident candidate points (same coordinates, distinct ids). -/
def coincidentPts : List RPoint :=
  [⟨1, 1, 1, none⟩, ⟨2, 1, 1, none⟩, ⟨3, 1, 1, none⟩]

/-- The same three entities a map-pan later: still coincident with each
other, at a different location. -/
def coincidentPtsMoved : List RPoint :=
  [⟨1, 2, 2, none⟩, ⟨2, 2, 2, none⟩, ⟨3, 2, 2, none⟩]

/-- A throwaway virtual marker for pool runs. -/
def sampleVMarker : VMarker :=
  { position := (1, 1),
    props :=
      { title := "x", amenity := none, hasReviews := false, ratings := none,
        icon := { kind := "restaurant", hasReviews := false, ratings := none } } }

/-- Two fixed entities for the diff-minimality run. -/
def restA : Restaurant :=
  { id := 1, name := "a", amenity := none, lat := 1, lng := 1,
    reviewsCount := 0, ratings := none }

def restB : Restaurant :=
  { id := 2, name := "b", amenity := none, lat := 2, lng := 2,
    reviewsCount := 0, ratings := none }

/-- Specification predicate for an insert-like function `f` at a tree `t`
and point `p`: the insert succeeds, preserves the node's bounds, depth and
maxDepth, preserves well-formedness, and the stored points are exactly the
old ones plus `p`. -/
def QuadTree.InsOk (f : QuadTree α → QPoint α → QuadTree α × Bool)
    (t : QuadTree α) (p : QPoint α) : Prop :=
  (f t p).2 = true ∧
  (f t p).1.bounds = t.bounds ∧
  (f t p).1.depth = t.depth ∧
  (f t p).1.maxDepth = t.maxDepth ∧
  (f t p).1.WF ∧
  (∀ q, q ∈ (f t p).1.stored ↔ q ∈ t.stored ∨ q = p)

/-- Invariant of an instrumented LRU cache run: the access order is
duplicate-free, lists exactly the cached keys, matches the cache in size,
never exceeds the capacity, and is sorted by last-touch time, with all
touches in the past. -/
def LRUInv (t : LRUTrace) : Prop :=
  t.state.accessOrder.Nodup ∧
  (∀ k, k ∈ t.state.accessOrder ↔ (t.state.cache.lookup k).isSome) ∧
  (t.state.cache.map Prod.fst).Nodup ∧
  t.state.accessOrder.length = t.state.cache.length ∧
  t.state.cache.length ≤ t.state.capacity ∧
  t.state.accessOrder.Pairwise
    (fun a b => lastTouchTime t.lastTouches a < lastTouchTime t.lastTouches b) ∧
  (∀ k ∈ t.state.accessOrder, lastTouchTime t.lastTouches k < t.clock)

/-! # Theorems -/

/-! ## C10 — rejected inserts are harmless no-ops -/

/-- C10: for every point whose coordinates fall outside a quadtree node's
bounds, `insert` returns `false` and leaves the tree — hence its stored
points — completely unchanged, with no error (the embedding is a total
function). -/
theorem quadtree_insert_outside_noop {α : Type} (fuel : ℕ) (t : QuadTree α)
    (p : QPoint α) (h : t.bounds.containsPoint p = false) :
    QuadTree.insert fuel t p = (t, false) ∧
      (QuadTree.insert fuel t p).1.stored = t.stored := by
  have hmain : QuadTree.insert fuel t p = (t, false) := by
    cases fuel with
    | zero => rfl
    | succ n =>
      cases t with
      | leaf b c m d pts =>
        simp only [QuadTree.bounds] at h
        simp [QuadTree.insert, QuadTree.insertStep, h]
      | node b c m d nw ne sw se =>
        simp only [QuadTree.bounds] at h
        simp [QuadTree.insert, QuadTree.insertStep, h]
  exact ⟨hmain, by rw [hmain]⟩

/-- Witness for C10: a point at `(2, 2)` is outside the unit-square root
and is rejected without change. -/
theorem quadtree_insert_outside_noop_witness :
    QuadTree.insert 9 (.leaf ⟨0, 0, 1, 1⟩ 4 8 0 []) (⟨2, 2, 0⟩ : QPoint ℕ) =
      (.leaf ⟨0, 0, 1, 1⟩ 4 8 0 [], false) ∧
    (QuadTree.insert 9 (.leaf ⟨0, 0, 1, 1⟩ 4 8 0 []) (⟨2, 2, 0⟩ : QPoint ℕ)).1.stored =
      (QuadTree.leaf ⟨0, 0, 1, 1⟩ 4 8 0 []).stored :=
  quadtree_insert_outside_noop 9 (.leaf ⟨0, 0, 1, 1⟩ 4 8 0 []) ⟨2, 2, 0⟩
    (by with_unfolding_all decide)

/-! ## C1 — the greedy cluster step drops the seed point -/

/-- C1 fails on the code: three coincident points (trivially all within any
positive radius of each other), `minClusterSize = 2`, at zoom 10 (below
the clustering threshold 16).  The claim demands exactly one cluster
containing all three; `findClusters` instead builds the cluster from the
`id !==`-filtered neighbour list only, so the run produces one cluster of
`count = 2` and the seed point (id 1) appears in no emitted cluster at
all. -/
theorem cluster_seed_point_dropped :
    ClusterManager.defaultOptions.minClusterSize = 2 ∧
    coincidentPts.length = 3 ∧
    10 < ClusterManager.defaultOptions.zoomThreshold ∧
    (ClusterManager.calculateClusters ClusterManager.defaultOptions clusterProjStub
        ClusterManager.initState coincidentPts 10 0).2.clusters.length = 1 ∧
    (ClusterManager.calculateClusters ClusterManager.defaultOptions clusterProjStub
        ClusterManager.initState coincidentPts 10 0).2.clusters.map Cluster.count =
      [some 2] ∧
    (∀ c ∈ (ClusterManager.calculateClusters ClusterManager.defaultOptions clusterProjStub
        ClusterManager.initState coincidentPts 10 0).2.clusters,
      ∀ p ∈ c.points, p.id ≠ 1) := by
  with_unfolding_all decide

/-! ## C2 — pool conservation is violated -/

/-- C2 fails on the code: from a freshly constructed pool, acquire markers
for two entities (ids 100, 200) and release the first — a completed
acquire/release cycle.  `createMarker` put marker 0 into the recycled set
and the fresh-creation path of `acquireMarker` never removed it, so the
second acquisition handed the *same* marker out again; afterwards
`active + recycled = 1 + 1 = 2` while the pool holds a single marker, and
marker 0 sits in the active and the recycled set simultaneously. -/
theorem pool_conservation_violated :
    ((VirtualMarkerPool.removeMarker
        (VirtualMarkerPool.updateMarker
          (VirtualMarkerPool.updateMarker
            (VirtualMarkerPool.initState VirtualMarkerPool.defaultOptions)
            100 sampleVMarker)
          200 sampleVMarker)
        100).activeMarkers.length +
      (VirtualMarkerPool.removeMarker
        (VirtualMarkerPool.updateMarker
          (VirtualMarkerPool.updateMarker
            (VirtualMarkerPool.initState VirtualMarkerPool.defaultOptions)
            100 sampleVMarker)
          200 sampleVMarker)
        100).recycledMarkers.length ≠
      (VirtualMarkerPool.removeMarker
        (VirtualMarkerPool.updateMarker
          (VirtualMarkerPool.updateMarker
            (VirtualMarkerPool.initState VirtualMarkerPool.defaultOptions)
            100 sampleVMarker)
          200 sampleVMarker)
        100).markerPool.length) ∧
    0 ∈ (VirtualMarkerPool.removeMarker
        (VirtualMarkerPool.updateMarker
          (VirtualMarkerPool.updateMarker
            (VirtualMarkerPool.initState VirtualMarkerPool.defaultOptions)
            100 sampleVMarker)
          200 sampleVMarker)
        100).activeMarkers.map Prod.snd ∧
    0 ∈ (VirtualMarkerPool.removeMarker
        (VirtualMarkerPool.updateMarker
          (VirtualMarkerPool.updateMarker
            (VirtualMarkerPool.initState VirtualMarkerPool.defaultOptions)
            100 sampleVMarker)
          200 sampleVMarker)
        100).recycledMarkers := by
  with_unfolding_all decide

/-! ## C3 — transitions are never produced -/

/-- C3 fails on the code: two consecutive clustering passes (zoom 10,
below the threshold), both emitting a cluster with the repeated id
`cluster_0`, whose centroid moves from `(1, 1)` to `(2, 2)`.  The claim
demands a transition record for it; because `calculateClusters` never
writes the freshly computed clusters back into `this.clusters`, the
previous-state snapshot is always empty and the second pass produces no
transition at all. -/
theorem cluster_transitions_never_produced :
    ((ClusterManager.calculateClusters ClusterManager.defaultOptions clusterProjStub
        ClusterManager.initState coincidentPts 10 0).2.clusters.map
      (fun c => (c.id, c.position)) = [(.generated 0, (1, 1))]) ∧
    ((ClusterManager.calculateClusters ClusterManager.defaultOptions clusterProjStub
        (ClusterManager.calculateClusters ClusterManager.defaultOptions clusterProjStub
          ClusterManager.initState coincidentPts 10 0).1
        coincidentPtsMoved 10 500).2.clusters.map
      (fun c => (c.id, c.position)) = [(.generated 0, (2, 2))]) ∧
    (ClusterManager.calculateClusters ClusterManager.defaultOptions clusterProjStub
        (ClusterManager.calculateClusters ClusterManager.defaultOptions clusterProjStub
          ClusterManager.initState coincidentPts 10 0).1
        coincidentPtsMoved 10 500).2.transitions = [] ∧
    (ClusterManager.calculateClusters ClusterManager.defaultOptions clusterProjStub
        (ClusterManager.calculateClusters ClusterManager.defaultOptions clusterProjStub
          ClusterManager.initState coincidentPts 10 0).1
        coincidentPtsMoved 10 500).1.transitions = [] := by
  with_unfolding_all decide

/-! ## C4 — the pruning pass throws -/

/-- C4 fails on the code: on the default-configured layer (whose
constructor installs five per-band caches) `pruneCache` reaches
`cache.getRegions()`, a method `SpatialCacheManager` does not define, and
raises a `TypeError` — it neither removes the unpopular entries nor stays
non-fatal. -/
theorem prune_cache_raises_type_error :
    (SmartCacheLayer.initState SmartCacheLayer.defaultOptions).zoomLevelCaches.map
      Prod.fst = [10, 12, 14, 16, 18] ∧
    SmartCacheLayer.pruneCache SmartCacheLayer.defaultOptions
      (SmartCacheLayer.initState SmartCacheLayer.defaultOptions) 0 =
      .error "TypeError: cache.getRegions is not a function" := by
  constructor
  · decide
  · rfl

/-! ## C8 — visible and preload sets are not disjoint -/

/-- C8 fails on the code: one marker (id 5) inside the viewport.  Because
`processViewportUpdate` clears `visibleMarkers` before the filters run and
fills it only afterwards, `filterPreloadMarkers`'s exclusion test reads an
empty set, so the marker lands in the visible **and** the preload set —
the preload set contains a marker inside the viewport and the two sets are
not disjoint.  The density-selection branch is not entered (1 candidate,
budget 100). -/
theorem viewport_sets_not_disjoint :
    ViewportOptimizer.isInBounds ⟨5, 1 / 2, 1 / 2, 0, none, none⟩ ⟨0, 1, 0, 1, 10⟩ = true ∧
    (ViewportOptimizer.processViewportUpdate (fun l => l)
      (ViewportOptimizer.setViewport (1 / 2) ⟨0, 1, 0, 1, 10⟩
        ⟨⟨0, 1, 0, 1, 10⟩, ⟨0, 1, 0, 1, 10⟩, [], []⟩)
      [⟨5, 1 / 2, 1 / 2, 0, none, none⟩]).visibleMarkers = [5] ∧
    (ViewportOptimizer.processViewportUpdate (fun l => l)
      (ViewportOptimizer.setViewport (1 / 2) ⟨0, 1, 0, 1, 10⟩
        ⟨⟨0, 1, 0, 1, 10⟩, ⟨0, 1, 0, 1, 10⟩, [], []⟩)
      [⟨5, 1 / 2, 1 / 2, 0, none, none⟩]).preloadedMarkers = [5] := by
  with_unfolding_all decide

/-! ## C9 — an unchanged entity's marker is mutated through aliasing -/

/-- C9 fails on the code: cycle 1 renders entities 1 and 2 from an empty
pool, and the acquisition bug binds both to the single pooled marker 0.
In cycle 2 entity 1 is unchanged (same position and payload — indeed no
pending update is queued for it, as the claim demands) and entity 2
disappears; removing entity 2 flips the shared marker's state to
invisible, so entity 1's pooled marker state **is** modified by a cycle
that queued nothing for it. -/
theorem unchanged_marker_mutated_by_aliasing :
    ((VirtualMarkerPool.cycle
        (VirtualMarkerPool.initState VirtualMarkerPool.defaultOptions)
        [restA, restB]).virtualMarkers.lookup 1 =
      some (VirtualMarkerPool.buildVirtualMarker restA)) ∧
    ((VirtualMarkerPool.updateVirtualMarkers
        (VirtualMarkerPool.cycle
          (VirtualMarkerPool.initState VirtualMarkerPool.defaultOptions)
          [restA, restB])
        [restA]).pendingUpdates.lookup 1 = none) ∧
    ((VirtualMarkerPool.cycle
        (VirtualMarkerPool.initState VirtualMarkerPool.defaultOptions)
        [restA, restB]).activeMarkers.lookup 1 = some 0) ∧
    (((VirtualMarkerPool.cycle
        (VirtualMarkerPool.initState VirtualMarkerPool.defaultOptions)
        [restA, restB]).markerStates.lookup 0).map MarkerState.visible = some true) ∧
    ((VirtualMarkerPool.applyUpdates
        (VirtualMarkerPool.updateVirtualMarkers
          (VirtualMarkerPool.cycle
            (VirtualMarkerPool.initState VirtualMarkerPool.defaultOptions)
            [restA, restB])
          [restA])).activeMarkers.lookup 1 = some 0) ∧
    (((VirtualMarkerPool.applyUpdates
        (VirtualMarkerPool.updateVirtualMarkers
          (VirtualMarkerPool.cycle
            (VirtualMarkerPool.initState VirtualMarkerPool.defaultOptions)
            [restA, restB])
          [restA])).markerStates.lookup 0).map MarkerState.visible = some false) := by
  with_unfolding_all decide

/-! ## C7 — region keys: deterministic, but not stable under sub-step moves -/

/-- Counterexample to C7 as stated: at `zoom = minZoom = 10` the
quantization step is `1` and the two bounding boxes differ only in `south`,
by `1/5 < 1` (every corresponding coordinate differs by less than the
step), yet `0.4` rounds to `0` while `0.6` rounds to `1`, so the keys
differ. -/
theorem region_key_substep_counterexample :
    (|(2 / 5 : ℚ) - 3 / 5| < regionQuantStep 10 10 ∧
     |(0 : ℚ) - 0| < regionQuantStep 10 10 ∧
     |(1 : ℚ) - 1| < regionQuantStep 10 10 ∧
     |(1 : ℚ) - 1| < regionQuantStep 10 10) ∧
    SpatialCacheManager.generateRegionKey 10 ⟨2 / 5, 0, 1, 1⟩ 10 ≠
      SpatialCacheManager.generateRegionKey 10 ⟨3 / 5, 0, 1, 1⟩ 10 := by
  with_unfolding_all decide

/-- C7 amended: `generateRegionKey` is deterministic (identical bounds and
zoom give the identical key), and two bounding boxes whose corresponding
coordinates *round to the same quantized values* at the zoom's precision
(i.e. lie in the same quantization cell, rather than merely being less
than a step apart) produce the same key. -/
theorem region_key_deterministic_and_cell_stable :
    (∀ (minZoom zoom : ℤ) (b1 b2 : GeoBounds), b1 = b2 →
      SpatialCacheManager.generateRegionKey minZoom b1 zoom =
        SpatialCacheManager.generateRegionKey minZoom b2 zoom) ∧
    (∀ (minZoom zoom : ℤ) (b1 b2 : GeoBounds),
      jsRound (b1.south * regionPrecision minZoom zoom) =
        jsRound (b2.south * regionPrecision minZoom zoom) →
      jsRound (b1.west * regionPrecision minZoom zoom) =
        jsRound (b2.west * regionPrecision minZoom zoom) →
      jsRound (b1.north * regionPrecision minZoom zoom) =
        jsRound (b2.north * regionPrecision minZoom zoom) →
      jsRound (b1.east * regionPrecision minZoom zoom) =
        jsRound (b2.east * regionPrecision minZoom zoom) →
      SpatialCacheManager.generateRegionKey minZoom b1 zoom =
        SpatialCacheManager.generateRegionKey minZoom b2 zoom) := by
  constructor
  · rintro minZoom zoom b1 b2 rfl
    rfl
  · intro minZoom zoom b1 b2 hs hw hn he
    simp [SpatialCacheManager.generateRegionKey, hs, hw, hn, he]

/-- Witness for the amended C7: `0.4` and `0.45` lie in the same
quantization cell at zoom 10 and receive the same key. -/
theorem region_key_deterministic_and_cell_stable_witness :
    SpatialCacheManager.generateRegionKey 10 ⟨2 / 5, 0, 1, 1⟩ 10 =
      SpatialCacheManager.generateRegionKey 10 ⟨9 / 20, 0, 1, 1⟩ 10 :=
  region_key_deterministic_and_cell_stable.2 10 10 ⟨2 / 5, 0, 1, 1⟩ ⟨9 / 20, 0, 1, 1⟩
    (by with_unfolding_all decide) (by with_unfolding_all decide)
    (by with_unfolding_all decide) (by with_unfolding_all decide)

/-! ## C6 — quadtree containment: auxiliary lemmas -/

/-- A point inside any of the four quadrants of a non-degenerate rectangle
is inside the rectangle. -/
theorem Rect.containsPoint_of_quadrant {α : Type} {b : Rect} {q : QPoint α}
    (hw : 0 ≤ b.width) (hh : 0 ≤ b.height)
    (h : b.nwRect.containsPoint q = true ∨ b.neRect.containsPoint q = true ∨
      b.swRect.containsPoint q = true ∨ b.seRect.containsPoint q = true) :
    b.containsPoint q = true := by
  simp only [Rect.containsPoint, Rect.nwRect, Rect.neRect, Rect.swRect, Rect.seRect,
    decide_eq_true_eq] at h ⊢
  rcases h with ⟨h1, h2, h3, h4⟩ | ⟨h1, h2, h3, h4⟩ | ⟨h1, h2, h3, h4⟩ | ⟨h1, h2, h3, h4⟩ <;>
    exact ⟨by linarith, by linarith, by linarith, by linarith⟩

/-- A point inside a rectangle lies in (at least) one of its four
quadrants. -/
theorem Rect.quadrant_of_containsPoint {α : Type} {b : Rect} {q : QPoint α}
    (h : b.containsPoint q = true) :
    b.nwRect.containsPoint q = true ∨ b.neRect.containsPoint q = true ∨
    b.swRect.containsPoint q = true ∨ b.seRect.containsPoint q = true := by
  simp only [Rect.containsPoint, Rect.nwRect, Rect.neRect, Rect.swRect, Rect.seRect,
    decide_eq_true_eq] at h ⊢
  obtain ⟨h1, h2, h3, h4⟩ := h
  rcases lt_or_le q.x (b.x + b.width / 2) with hx | hx <;>
    rcases lt_or_le q.y (b.y + b.height / 2) with hy | hy
  · exact Or.inl ⟨h1, hx, h3, hy⟩
  · exact Or.inr (Or.inr (Or.inl ⟨h1, hx, hy, by linarith⟩))
  · exact Or.inr (Or.inl ⟨hx, by linarith, h3, hy⟩)
  · exact Or.inr (Or.inr (Or.inr ⟨hx, by linarith, hy, by linarith⟩))

/-- If a node's bounds contain a point that also satisfies `pointInRange`
for a query rectangle, the bounds intersect the query rectangle, so the
query never prunes away a node holding a matching point. -/
theorem Rect.intersects_of_common_point {α : Type} {b range : Rect} {q : QPoint α}
    (hb : b.containsPoint q = true) (hr : QuadTree.pointInRange q range = true) :
    b.intersects range = true := by
  simp only [Rect.containsPoint, decide_eq_true_eq] at hb
  simp only [QuadTree.pointInRange, decide_eq_true_eq] at hr
  simp only [Rect.intersects, decide_eq_true_eq]
  push_neg
  obtain ⟨hb1, hb2, hb3, hb4⟩ := hb
  obtain ⟨hr1, hr2, hr3, hr4⟩ := hr
  exact ⟨by linarith, by linarith, by linarith, by linarith⟩

/-- Soundness of `query`: every returned point satisfies `pointInRange`. -/
theorem QuadTree.pointInRange_of_mem_query {α : Type} :
    ∀ (t : QuadTree α) (range : Rect) (q : QPoint α),
      q ∈ t.query range → QuadTree.pointInRange q range = true := by
  intro t
  induction t with
  | leaf b c m d pts =>
    intro range q hq
    by_cases hb : b.intersects range
    · simp only [QuadTree.query, hb, if_true, List.mem_filter] at hq
      exact hq.2
    · simp [QuadTree.query, hb] at hq
  | node b c m d nw ne sw se ihnw ihne ihsw ihse =>
    intro range q hq
    by_cases hb : b.intersects range
    · simp only [QuadTree.query, hb, if_true, List.mem_append] at hq
      rcases hq with ((h | h) | h) | h
      · exact ihnw range q h
      · exact ihne range q h
      · exact ihsw range q h
      · exact ihse range q h
    · simp [QuadTree.query, hb] at hq

/-- In a well-formed tree every stored point lies inside the root bounds. -/
theorem QuadTree.containsPoint_of_mem_stored {α : Type} {t : QuadTree α}
    (hwf : t.WF) : ∀ q ∈ t.stored, t.bounds.containsPoint q = true := by
  induction hwf with
  | leaf hw hh hdm hpts =>
    intro q hq
    exact hpts q hq
  | node hw hh hdm hbnw hbne hbsw hbse hdnw hdne hdsw hdse hmnw hmne hmsw hmse
      hnw hne hsw hse ihnw ihne ihsw ihse =>
    intro q hq
    simp only [QuadTree.stored, List.mem_append] at hq
    simp only [QuadTree.bounds]
    rcases hq with ((h | h) | h) | h
    · exact Rect.containsPoint_of_quadrant hw hh (Or.inl (hbnw ▸ ihnw q h))
    · exact Rect.containsPoint_of_quadrant hw hh (Or.inr (Or.inl (hbne ▸ ihne q h)))
    · exact Rect.containsPoint_of_quadrant hw hh (Or.inr (Or.inr (Or.inl (hbsw ▸ ihsw q h))))
    · exact Rect.containsPoint_of_quadrant hw hh (Or.inr (Or.inr (Or.inr (hbse ▸ ihse q h))))

/-- Completeness of `query` on well-formed trees: every stored point
satisfying `pointInRange` is returned. -/
theorem QuadTree.mem_query_of_mem_stored {α : Type} {t : QuadTree α} (hwf : t.WF) :
    ∀ (range : Rect) (q : QPoint α),
      q ∈ t.stored → QuadTree.pointInRange q range = true → q ∈ t.query range := by
  induction hwf with
  | leaf hw hh hdm hpts =>
    intro range q hq hr
    have hint := Rect.intersects_of_common_point (hpts q hq) hr
    simp only [QuadTree.query, hint, if_true, List.mem_filter]
    exact ⟨hq, hr⟩
  | node hw hh hdm hbnw hbne hbsw hbse hdnw hdne hdsw hdse hmnw hmne hmsw hmse
      hnw hne hsw hse ihnw ihne ihsw ihse =>
    intro range q hq hr
    have hcb := QuadTree.containsPoint_of_mem_stored
      (QuadTree.WF.node hw hh hdm hbnw hbne hbsw hbse hdnw hdne hdsw hdse
        hmnw hmne hmsw hmse hnw hne hsw hse) q hq
    simp only [QuadTree.bounds] at hcb
    have hint := Rect.intersects_of_common_point hcb hr
    simp only [QuadTree.stored, List.mem_append] at hq
    simp only [QuadTree.query, hint, if_true, List.mem_append]
    rcases hq with ((h | h) | h) | h
    · exact Or.inl (Or.inl (Or.inl (ihnw range q h hr)))
    · exact Or.inl (Or.inl (Or.inr (ihne range q h hr)))
    · exact Or.inl (Or.inr (ihsw range q h hr))
    · exact Or.inr (ihse range q h hr)

/-- `insert` on a point outside the node's bounds fails without change,
for any fuel. -/
theorem QuadTree.insert_of_not_contains {α : Type} (fuel : ℕ) (t : QuadTree α)
    (p : QPoint α) (h : t.bounds.containsPoint p = false) :
    QuadTree.insert fuel t p = (t, false) := by
  cases fuel with
  | zero => rfl
  | succ n =>
    cases t with
    | leaf b c m d pts =>
      simp only [QuadTree.bounds] at h
      simp [QuadTree.insert, QuadTree.insertStep, h]
    | node b c m d nw ne sw se =>
      simp only [QuadTree.bounds] at h
      simp [QuadTree.insert, QuadTree.insertStep, h]

set_option maxHeartbeats 1600000 in
/-- `insertToChildren` on a well-formed node whose bounds contain the
point: assuming the level-below insert satisfies its specification, the
first child whose quadrant holds the point accepts it, and the result is a
well-formed node with the same parameters storing exactly one more
point. -/
theorem QuadTree.insertToChildren_spec {α : Type} {fuel : ℕ}
    (IH : ∀ (t : QuadTree α) (p : QPoint α), t.WF →
      t.maxDepth + 1 ≤ fuel + t.depth → t.bounds.containsPoint p = true →
      QuadTree.InsOk (QuadTree.insert fuel) t p)
    {b : Rect} {c m d : ℕ} {nw ne sw se : QuadTree α} {p : QPoint α}
    (hwf : (QuadTree.node b c m d nw ne sw se).WF)
    (hfuel : m + 1 ≤ fuel + (d + 1))
    (hp : b.containsPoint p = true) :
    QuadTree.InsOk (QuadTree.insertToChildrenWith (QuadTree.insert fuel))
      (QuadTree.node b c m d nw ne sw se) p ∧
    ∃ nw2 ne2 sw2 se2,
      (QuadTree.insertToChildrenWith (QuadTree.insert fuel)
        (QuadTree.node b c m d nw ne sw se) p).1 = QuadTree.node b c m d nw2 ne2 sw2 se2 := by
  cases hwf with
  | node hw hh hdm hbnw hbne hbsw hbse hdnw hdne hdsw hdse hmnw hmne hmsw hmse
      hnw hne hsw hse =>
  by_cases h1 : nw.bounds.containsPoint p = true
  · obtain ⟨s2, sb, sd, sm, swf, sst⟩ := IH nw p hnw (by rw [hmnw, hdnw]; exact hfuel) h1
    have E : QuadTree.insertToChildrenWith (QuadTree.insert fuel)
        (QuadTree.node b c m d nw ne sw se) p =
        (QuadTree.node b c m d (QuadTree.insert fuel nw p).1 ne sw se, true) := by
      simp [QuadTree.insertToChildrenWith, s2]
    constructor
    · unfold QuadTree.InsOk
      rw [E]
      refine ⟨rfl, rfl, rfl, rfl, ?_, ?_⟩
      · exact QuadTree.WF.node hw hh hdm (sb.trans hbnw) hbne hbsw hbse
          (sd.trans hdnw) hdne hdsw hdse (sm.trans hmnw) hmne hmsw hmse
          swf hne hsw hse
      · intro q
        have h := sst q
        simp only [QuadTree.stored, List.mem_append] at h ⊢
        tauto
    · rw [E]
      exact ⟨_, _, _, _, rfl⟩
  · have E1 : QuadTree.insert fuel nw p = (nw, false) :=
      QuadTree.insert_of_not_contains fuel nw p (by simpa using h1)
    by_cases h2 : ne.bounds.containsPoint p = true
    · obtain ⟨s2, sb, sd, sm, swf, sst⟩ := IH ne p hne (by rw [hmne, hdne]; exact hfuel) h2
      have E : QuadTree.insertToChildrenWith (QuadTree.insert fuel)
          (QuadTree.node b c m d nw ne sw se) p =
          (QuadTree.node b c m d nw (QuadTree.insert fuel ne p).1 sw se, true) := by
        simp [QuadTree.insertToChildrenWith, E1, s2]
      constructor
      · unfold QuadTree.InsOk
        rw [E]
        refine ⟨rfl, rfl, rfl, rfl, ?_, ?_⟩
        · exact QuadTree.WF.node hw hh hdm hbnw (sb.trans hbne) hbsw hbse
            hdnw (sd.trans hdne) hdsw hdse hmnw (sm.trans hmne) hmsw hmse
            hnw swf hsw hse
        · intro q
          have h := sst q
          simp only [QuadTree.stored, List.mem_append] at h ⊢
          tauto
      · rw [E]
        exact ⟨_, _, _, _, rfl⟩
    · have E2 : QuadTree.insert fuel ne p = (ne, false) :=
        QuadTree.insert_of_not_contains fuel ne p (by simpa using h2)
      by_cases h3 : sw.bounds.containsPoint p = true
      · obtain ⟨s2, sb, sd, sm, swf, sst⟩ := IH sw p hsw (by rw [hmsw, hdsw]; exact hfuel) h3
        have E : QuadTree.insertToChildrenWith (QuadTree.insert fuel)
            (QuadTree.node b c m d nw ne sw se) p =
            (QuadTree.node b c m d nw ne (QuadTree.insert fuel sw p).1 se, true) := by
          simp [QuadTree.insertToChildrenWith, E1, E2, s2]
        constructor
        · unfold QuadTree.InsOk
          rw [E]
          refine ⟨rfl, rfl, rfl, rfl, ?_, ?_⟩
          · exact QuadTree.WF.node hw hh hdm hbnw hbne (sb.trans hbsw) hbse
              hdnw hdne (sd.trans hdsw) hdse hmnw hmne (sm.trans hmsw) hmse
              hnw hne swf hse
          · intro q
            have h := sst q
            simp only [QuadTree.stored, List.mem_append] at h ⊢
            tauto
        · rw [E]
          exact ⟨_, _, _, _, rfl⟩
      · have E3 : QuadTree.insert fuel sw p = (sw, false) :=
          QuadTree.insert_of_not_contains fuel sw p (by simpa using h3)
        have h4 : se.bounds.containsPoint p = true := by
          rcases Rect.quadrant_of_containsPoint hp with h | h | h | h
          · exact absurd (hbnw ▸ h) h1
          · exact absurd (hbne ▸ h) h2
          · exact absurd (hbsw ▸ h) h3
          · exact hbse ▸ h
        obtain ⟨s2, sb, sd, sm, swf, sst⟩ := IH se p hse (by rw [hmse, hdse]; exact hfuel) h4
        have E : QuadTree.insertToChildrenWith (QuadTree.insert fuel)
            (QuadTree.node b c m d nw ne sw se) p =
            (QuadTree.node b c m d nw ne sw (QuadTree.insert fuel se p).1, true) := by
          simp [QuadTree.insertToChildrenWith, E1, E2, E3, s2]
        constructor
        · unfold QuadTree.InsOk
          rw [E]
          refine ⟨rfl, rfl, rfl, rfl, ?_, ?_⟩
          · exact QuadTree.WF.node hw hh hdm hbnw hbne hbsw (sb.trans hbse)
              hdnw hdne hdsw (sd.trans hdse) hmnw hmne hmsw (sm.trans hmse)
              hnw hne hsw swf
          · intro q
            have h := sst q
            simp only [QuadTree.stored, List.mem_append] at h ⊢
            tauto
        · rw [E]
          exact ⟨_, _, _, _, rfl⟩

set_option maxHeartbeats 1600000 in
/-- The redistribution loop of `subdivide`: folding the former leaf's
points (all inside the node bounds) into a well-formed node keeps it a
well-formed node with the same parameters and stores exactly those
points in addition. -/
theorem QuadTree.redistribute_spec {α : Type} {fuel : ℕ}
    (IH : ∀ (t : QuadTree α) (p : QPoint α), t.WF →
      t.maxDepth + 1 ≤ fuel + t.depth → t.bounds.containsPoint p = true →
      QuadTree.InsOk (QuadTree.insert fuel) t p)
    {b : Rect} {c m d : ℕ} (hfuel : m + 1 ≤ fuel + (d + 1)) :
    ∀ (pts : List (QPoint α)) (nw ne sw se : QuadTree α),
      (QuadTree.node b c m d nw ne sw se).WF →
      (∀ q ∈ pts, b.containsPoint q = true) →
      ∃ nw2 ne2 sw2 se2,
        QuadTree.redistributeWith (QuadTree.insert fuel) pts
            (QuadTree.node b c m d nw ne sw se) =
          QuadTree.node b c m d nw2 ne2 sw2 se2 ∧
        (QuadTree.node b c m d nw2 ne2 sw2 se2).WF ∧
        (∀ q, q ∈ (QuadTree.node b c m d nw2 ne2 sw2 se2).stored ↔
          q ∈ (QuadTree.node b c m d nw ne sw se).stored ∨ q ∈ pts) := by
  intro pts
  induction pts with
  | nil =>
    intro nw ne sw se hwf hpts
    exact ⟨nw, ne, sw, se, rfl, hwf, fun q => by simp⟩
  | cons q0 rest ihrest =>
    intro nw ne sw se hwf hpts
    obtain ⟨hins, nw1, ne1, sw1, se1, hnode⟩ :=
      QuadTree.insertToChildren_spec IH hwf hfuel (hpts q0 (by simp))
    obtain ⟨i2, ib, idp, im, iwf, ist⟩ := hins
    have hwf1 : (QuadTree.node b c m d nw1 ne1 sw1 se1).WF := hnode ▸ iwf
    obtain ⟨nw2, ne2, sw2, se2, e2, wf2, st2⟩ :=
      ihrest nw1 ne1 sw1 se1 hwf1 (fun q hq => hpts q (by simp [hq]))
    refine ⟨nw2, ne2, sw2, se2, ?_, wf2, ?_⟩
    · simp only [QuadTree.redistributeWith]
      rw [hnode]
      exact e2
    · intro q
      have h1 := ist q
      have h2 := st2 q
      rw [hnode] at h1
      rw [h2, h1, List.mem_cons]
      tauto

set_option maxHeartbeats 1600000 in
/-- The main `insert` specification: on a well-formed tree, with fuel at
least `maxDepth + 1 - depth`, inserting a point inside the root bounds
succeeds, preserves the node parameters and well-formedness, and the
stored points are exactly the old ones plus the point. -/
theorem QuadTree.insert_spec {α : Type} :
    ∀ (fuel : ℕ) (t : QuadTree α) (p : QPoint α), t.WF →
      t.maxDepth + 1 ≤ fuel + t.depth → t.bounds.containsPoint p = true →
      QuadTree.InsOk (QuadTree.insert fuel) t p := by
  intro fuel
  induction fuel with
  | zero =>
    intro t p hwf hfuel hp
    exfalso
    cases hwf with
    | leaf hw hh hdm hpts =>
      simp only [QuadTree.maxDepth, QuadTree.depth] at hfuel
      omega
    | node hw hh hdm hbnw hbne hbsw hbse hdnw hdne hdsw hdse hmnw hmne hmsw hmse
        hnw hne hsw hse =>
      simp only [QuadTree.maxDepth, QuadTree.depth] at hfuel
      omega
  | succ fuel ih =>
    intro t p hwf hfuel hp
    cases t with
    | leaf b c m d pts =>
      cases hwf with
      | leaf hw hh hdmle hpts =>
      simp only [QuadTree.bounds] at hp
      simp only [QuadTree.maxDepth, QuadTree.depth] at hfuel
      by_cases hsmall : pts.length < c ∨ m ≤ d
      · have E : QuadTree.insert (fuel + 1) (QuadTree.leaf b c m d pts) p =
            (QuadTree.leaf b c m d (pts ++ [p]), true) := by
          simp only [QuadTree.insert, QuadTree.insertStep]
          rw [if_pos hp, if_pos hsmall]
        unfold QuadTree.InsOk
        rw [E]
        refine ⟨rfl, rfl, rfl, rfl, ?_, ?_⟩
        · refine QuadTree.WF.leaf hw hh hdmle ?_
          intro q hq
          rcases List.mem_append.1 hq with h | h
          · exact hpts q h
          · have : q = p := by simpa using h
            subst this
            exact hp
        · intro q
          simp [QuadTree.stored]
      · have hsmall' := hsmall
        push_neg at hsmall'
        obtain ⟨hlen, hd⟩ := hsmall'
        have hwfE : (QuadTree.emptyChildren b c m d : QuadTree α).WF := by
          refine QuadTree.WF.node hw hh hd rfl rfl rfl rfl rfl rfl rfl rfl rfl rfl rfl rfl
            ?_ ?_ ?_ ?_
          · exact QuadTree.WF.leaf
              (by simp only [Rect.nwRect]; linarith)
              (by simp only [Rect.nwRect]; linarith) (by omega) (by simp)
          · exact QuadTree.WF.leaf
              (by simp only [Rect.neRect]; linarith)
              (by simp only [Rect.neRect]; linarith) (by omega) (by simp)
          · exact QuadTree.WF.leaf
              (by simp only [Rect.swRect]; linarith)
              (by simp only [Rect.swRect]; linarith) (by omega) (by simp)
          · exact QuadTree.WF.leaf
              (by simp only [Rect.seRect]; linarith)
              (by simp only [Rect.seRect]; linarith) (by omega) (by simp)
        obtain ⟨nw2, ne2, sw2, se2, e2, wf2, st2⟩ :=
          QuadTree.redistribute_spec ih (by omega) pts _ _ _ _ hwfE hpts
        obtain ⟨hins, nw3, ne3, sw3, se3, hnode3⟩ :=
          QuadTree.insertToChildren_spec ih wf2 (by omega) hp
        obtain ⟨i2, ib, idp, im, iwf, ist⟩ := hins
        have E : QuadTree.insert (fuel + 1) (QuadTree.leaf b c m d pts) p =
            QuadTree.insertToChildrenWith (QuadTree.insert fuel)
              (QuadTree.node b c m d nw2 ne2 sw2 se2) p := by
          simp only [QuadTree.insert, QuadTree.insertStep, QuadTree.emptyChildren]
          rw [if_pos hp, if_neg hsmall, e2]
        unfold QuadTree.InsOk
        rw [E]
        refine ⟨i2, ib, idp, im, iwf, ?_⟩
        intro q
        have h1 := ist q
        have h2 := st2 q
        rw [h1, h2]
        simp only [QuadTree.stored, List.mem_append, List.not_mem_nil, false_or,
          or_false]
    | node b c m d nw ne sw se =>
      have hp' : b.containsPoint p = true := by simpa [QuadTree.bounds] using hp
      have hfc : m + 1 ≤ fuel + (d + 1) := by
        simp only [QuadTree.maxDepth, QuadTree.depth] at hfuel
        omega
      obtain ⟨hins, nw3, ne3, sw3, se3, hnode3⟩ :=
        QuadTree.insertToChildren_spec ih hwf hfc hp'
      have E : QuadTree.insert (fuel + 1) (QuadTree.node b c m d nw ne sw se) p =
          QuadTree.insertToChildrenWith (QuadTree.insert fuel)
            (QuadTree.node b c m d nw ne sw se) p := by
        simp only [QuadTree.insert, QuadTree.insertStep]
        rw [if_pos hp']
      unfold QuadTree.InsOk at hins ⊢
      rw [E]
      exact hins

/-- C6: for every point successfully inserted into a well-formed quadtree
(with fuel covering the remaining depth, as at the root) and every query
rectangle, the query returns the point exactly when the rectangle contains
the point's coordinates: it returns it for every containing rectangle and
never for a disjoint one. -/
theorem quadtree_insert_query_containment {α : Type} (fuel : ℕ) (t t2 : QuadTree α)
    (p : QPoint α) (range : Rect) (hwf : t.WF)
    (hfuel : t.maxDepth + 1 ≤ fuel + t.depth)
    (hins : QuadTree.insert fuel t p = (t2, true)) :
    p ∈ t2.query range ↔ QuadTree.pointInRange p range = true := by
  have hcont : t.bounds.containsPoint p = true := by
    by_contra hc
    rw [Bool.not_eq_true] at hc
    have hfalse := QuadTree.insert_of_not_contains fuel t p hc
    rw [hins] at hfalse
    simp at hfalse
  obtain ⟨s2, sb, sd, sm, swf, sst⟩ := QuadTree.insert_spec fuel t p hwf hfuel hcont
  have ht2 : (QuadTree.insert fuel t p).1 = t2 := by rw [hins]
  rw [ht2] at swf sst
  have hpstored : p ∈ t2.stored := (sst p).2 (Or.inr rfl)
  constructor
  · intro hq
    exact QuadTree.pointInRange_of_mem_query t2 range p hq
  · intro hr
    exact QuadTree.mem_query_of_mem_stored swf range p hpstored hr

/-- Witness for C6: inserting `(1/2, 1/2)` into the empty unit-square root
and querying the unit square finds it (the right-hand side holds by
computation, so the iff yields membership). -/
theorem quadtree_insert_query_containment_witness :
    (⟨1 / 2, 1 / 2, 7⟩ : QPoint ℕ) ∈
      (QuadTree.leaf ⟨0, 0, 1, 1⟩ 4 8 0 [⟨1 / 2, 1 / 2, 7⟩]).query ⟨0, 0, 1, 1⟩ ↔
    QuadTree.pointInRange (⟨1 / 2, 1 / 2, 7⟩ : QPoint ℕ) ⟨0, 0, 1, 1⟩ = true :=
  quadtree_insert_query_containment 9 (.leaf ⟨0, 0, 1, 1⟩ 4 8 0 [])
    (.leaf ⟨0, 0, 1, 1⟩ 4 8 0 [⟨1 / 2, 1 / 2, 7⟩]) ⟨1 / 2, 1 / 2, 7⟩ ⟨0, 0, 1, 1⟩
    (QuadTree.WF.leaf (by norm_num) (by norm_num) (by norm_num) (by simp))
    (by decide)
    (by with_unfolding_all decide)


/-! ## C5 — LRU cache: association-list helper lemmas -/

theorem lookup_isSome_iff_mem_keys {β : Type} (l : List (ℕ × β)) (k : ℕ) :
    (l.lookup k).isSome ↔ k ∈ l.map Prod.fst := by
  induction l with
  | nil => simp [List.lookup]
  | cons hd tl ih =>
    obtain ⟨a, b⟩ := hd
    by_cases h : k = a
    · subst h
      simp [List.lookup_cons]
    · simp [List.lookup_cons, beq_false_of_ne h, h, ih]

theorem lookup_map_update_self {β : Type} (k : ℕ) (v : β) :
    ∀ (m : List (ℕ × β)), (m.lookup k).isSome →
      ((m.map (fun kv => if kv.1 = k then (k, v) else kv)).lookup k) = some v := by
  intro m
  induction m with
  | nil => simp [List.lookup]
  | cons hd tl ih =>
    obtain ⟨a, b⟩ := hd
    intro hp
    by_cases h : a = k
    · subst h
      simp [List.lookup_cons]
    · have hne : k ≠ a := fun hx => h hx.symm
      simp only [List.map_cons, if_neg h]
      rw [List.lookup_cons, beq_false_of_ne hne] at hp ⊢
      exact ih hp

theorem lookup_map_update_ne {β : Type} (k : ℕ) (v : β) (k' : ℕ) (h : k' ≠ k) :
    ∀ (m : List (ℕ × β)),
      ((m.map (fun kv => if kv.1 = k then (k, v) else kv)).lookup k') = m.lookup k' := by
  intro m
  induction m with
  | nil => simp
  | cons hd tl ih =>
    obtain ⟨a, b⟩ := hd
    by_cases hk : a = k
    · subst hk
      simp [List.lookup_cons, beq_false_of_ne h, ih]
    · simp only [List.map_cons, if_neg hk]
      by_cases hh : k' = a
      · subst hh
        simp [List.lookup_cons]
      · rw [List.lookup_cons, List.lookup_cons, beq_false_of_ne hh]
        exact ih

theorem lookup_append_single_self {β : Type} (k : ℕ) (v : β) :
    ∀ (m : List (ℕ × β)), m.lookup k = none →
      ((m ++ [(k, v)]).lookup k) = some v := by
  intro m
  induction m with
  | nil => simp [List.lookup]
  | cons hd tl ih =>
    obtain ⟨a, b⟩ := hd
    intro hp
    have h : k ≠ a := by
      intro h
      subst h
      simp [List.lookup_cons] at hp
    rw [List.cons_append, List.lookup_cons, beq_false_of_ne h]
    rw [List.lookup_cons, beq_false_of_ne h] at hp
    exact ih hp

theorem lookup_append_single_ne {β : Type} (k : ℕ) (v : β) (k' : ℕ) (h : k' ≠ k) :
    ∀ (m : List (ℕ × β)), ((m ++ [(k, v)]).lookup k') = m.lookup k' := by
  intro m
  induction m with
  | nil => simp [List.lookup, List.lookup_cons, beq_false_of_ne h]
  | cons hd tl ih =>
    obtain ⟨a, b⟩ := hd
    by_cases hh : k' = a
    · subst hh
      simp [List.lookup_cons]
    · rw [List.cons_append, List.lookup_cons, List.lookup_cons, beq_false_of_ne hh]
      exact ih

theorem jsAssocSet_lookup_self {β : Type} (m : List (ℕ × β)) (k : ℕ) (v : β) :
    (jsAssocSet m k v).lookup k = some v := by
  by_cases hp : (m.lookup k).isSome
  · simp only [jsAssocSet, hp, if_true]
    exact lookup_map_update_self k v m hp
  · simp only [jsAssocSet, hp, if_false]
    exact lookup_append_single_self k v m (Option.not_isSome_iff_eq_none.mp hp)

theorem jsAssocSet_lookup_ne {β : Type} (m : List (ℕ × β)) (k : ℕ) (v : β)
    (k' : ℕ) (h : k' ≠ k) : (jsAssocSet m k v).lookup k' = m.lookup k' := by
  by_cases hp : (m.lookup k).isSome
  · simp only [jsAssocSet, hp, if_true]
    exact lookup_map_update_ne k v k' h m
  · simp only [jsAssocSet, hp, if_false]
    exact lookup_append_single_ne k v k' h m

theorem jsAssocSet_keys_present {β : Type} (m : List (ℕ × β)) (k : ℕ) (v : β)
    (hp : (m.lookup k).isSome) :
    (jsAssocSet m k v).map Prod.fst = m.map Prod.fst := by
  simp only [jsAssocSet, hp, if_true, List.map_map]
  refine List.map_congr_left ?_
  intro kv _
  by_cases h : kv.1 = k
  · simp [h]
  · simp [h]

theorem jsAssocSet_keys_absent {β : Type} (m : List (ℕ × β)) (k : ℕ) (v : β)
    (hp : ¬ (m.lookup k).isSome) :
    (jsAssocSet m k v).map Prod.fst = m.map Prod.fst ++ [k] := by
  simp [jsAssocSet, hp]

theorem jsAssocDelete_lookup_self {β : Type} (k : ℕ) :
    ∀ (m : List (ℕ × β)), (jsAssocDelete m k).lookup k = none := by
  intro m
  induction m with
  | nil => simp [jsAssocDelete]
  | cons hd tl ih =>
    obtain ⟨a, b⟩ := hd
    by_cases h : a = k
    · subst h
      simpa [jsAssocDelete, List.filter_cons] using ih
    · have hne : k ≠ a := fun hx => h hx.symm
      simp only [jsAssocDelete, List.filter_cons] at ih ⊢
      rw [if_pos (by simpa using h)]
      rw [List.lookup_cons, beq_false_of_ne hne]
      exact ih

theorem jsAssocDelete_lookup_ne {β : Type} (k k' : ℕ) (h : k' ≠ k) :
    ∀ (m : List (ℕ × β)), (jsAssocDelete m k).lookup k' = m.lookup k' := by
  intro m
  induction m with
  | nil => simp [jsAssocDelete]
  | cons hd tl ih =>
    obtain ⟨a, b⟩ := hd
    by_cases hk : a = k
    · subst hk
      have hne : k' ≠ a := h
      simp only [jsAssocDelete, List.filter_cons] at ih ⊢
      rw [if_neg (by simp)]
      rw [List.lookup_cons, beq_false_of_ne hne]
      exact ih
    · simp only [jsAssocDelete, List.filter_cons] at ih ⊢
      rw [if_pos (by simpa using hk)]
      by_cases hh : k' = a
      · subst hh
        simp [List.lookup_cons]
      · rw [List.lookup_cons, List.lookup_cons, beq_false_of_ne hh]
        exact ih

theorem jsAssocDelete_keys {β : Type} (k : ℕ) :
    ∀ (m : List (ℕ × β)),
      (jsAssocDelete m k).map Prod.fst = (m.map Prod.fst).filter (fun x => x ≠ k) := by
  intro m
  induction m with
  | nil => simp [jsAssocDelete]
  | cons hd tl ih =>
    obtain ⟨a, b⟩ := hd
    by_cases h : a = k
    · subst h
      simp only [jsAssocDelete, List.filter_cons, List.map_cons] at ih ⊢
      rw [if_neg (by simp), if_neg (by simp)]
      exact ih
    · simp only [jsAssocDelete, List.filter_cons, List.map_cons] at ih ⊢
      rw [if_pos (by simpa using h), List.map_cons, if_pos (by simpa using h)]
      rw [ih]

theorem lastTouchTime_cons_self (lt : List (ℕ × ℕ)) (k n : ℕ) :
    lastTouchTime ((k, n) :: lt) k = n := by
  simp [lastTouchTime, List.lookup]

theorem lastTouchTime_cons_ne (lt : List (ℕ × ℕ)) (k n k' : ℕ) (h : k' ≠ k) :
    lastTouchTime ((k, n) :: lt) k' = lastTouchTime lt k' := by
  simp [lastTouchTime, List.lookup, beq_eq_false_iff_ne.mpr h]

/-! ## C5 — LRU cache: invariant preservation -/

theorem nodup_touch (ao : List ℕ) (k : ℕ) (hnd : ao.Nodup) :
    (ao.erase k ++ [k]).Nodup := by
  refine List.Nodup.append (hnd.erase k) (List.nodup_singleton k) ?_
  intro a ha hb
  have h1 : a ≠ k := ((hnd.mem_erase_iff).mp ha).1
  have h2 : a = k := by simpa using hb
  exact h1 h2

theorem mem_touch (ao : List ℕ) (k x : ℕ) (hnd : ao.Nodup) :
    x ∈ ao.erase k ++ [k] ↔ x ∈ ao ∨ x = k := by
  by_cases hx : x = k
  · simp [hx]
  · simp [List.mem_append, hnd.mem_erase_iff, hx]

theorem length_touch_of_mem (ao : List ℕ) (k : ℕ) (hk : k ∈ ao) :
    (ao.erase k ++ [k]).length = ao.length := by
  have h0 : ao ≠ [] := List.ne_nil_of_mem hk
  have h1 : 0 < ao.length := List.length_pos.mpr h0
  simp [List.length_append, List.length_erase_of_mem hk]
  omega

theorem pairwise_touch (lt : List (ℕ × ℕ)) (clock : ℕ) (ao : List ℕ) (k : ℕ)
    (hnd : ao.Nodup)
    (hpw : ao.Pairwise (fun a b => lastTouchTime lt a < lastTouchTime lt b))
    (hbound : ∀ x ∈ ao, lastTouchTime lt x < clock) :
    (ao.erase k ++ [k]).Pairwise (fun a b =>
      lastTouchTime ((k, clock) :: lt) a < lastTouchTime ((k, clock) :: lt) b) := by
  rw [List.pairwise_append]
  refine ⟨?_, List.pairwise_singleton _ _, ?_⟩
  · have hsub := List.Pairwise.sublist (List.erase_sublist k ao) hpw
    refine List.Pairwise.imp_of_mem ?_ hsub
    intro a b ha hb hr
    have hak : a ≠ k := ((hnd.mem_erase_iff).mp ha).1
    have hbk : b ≠ k := ((hnd.mem_erase_iff).mp hb).1
    rwa [lastTouchTime_cons_ne lt k clock a hak, lastTouchTime_cons_ne lt k clock b hbk]
  · intro a ha b hb
    have hbk : b = k := by simpa using hb
    rw [hbk]
    have hak : a ≠ k := ((hnd.mem_erase_iff).mp ha).1
    have hain : a ∈ ao := ((hnd.mem_erase_iff).mp ha).2
    rw [lastTouchTime_cons_ne lt k clock a hak, lastTouchTime_cons_self]
    exact hbound a hain

theorem bound_touch (lt : List (ℕ × ℕ)) (clock : ℕ) (ao : List ℕ) (k : ℕ)
    (hnd : ao.Nodup)
    (hbound : ∀ x ∈ ao, lastTouchTime lt x < clock) :
    ∀ x ∈ ao.erase k ++ [k], lastTouchTime ((k, clock) :: lt) x < clock + 1 := by
  intro x hx
  by_cases hxk : x = k
  · subst hxk
    rw [lastTouchTime_cons_self]
    omega
  · have hmem : x ∈ ao.erase k := by
      rcases List.mem_append.mp hx with h | h
      · exact h
      · exact absurd (by simpa using h) hxk
    have hain : x ∈ ao := ((hnd.mem_erase_iff).mp hmem).2
    rw [lastTouchTime_cons_ne lt k clock x hxk]
    have := hbound x hain
    omega

theorem set_accessOrder_getLast (s : LRUCacheState) (k : ℕ) (v : ℕ) :
    ((s.set k v).accessOrder).getLast? = some k := by
  simp [LRUCacheState.set, LRUCacheState.updateAccessOrder, List.getLast?_append]

theorem LRUCacheState.stepOp_capacity (s : LRUCacheState) (op : LRUOp) :
    (s.stepOp op).capacity = s.capacity := by
  cases op with
  | get k =>
    cases h : s.cache.lookup k <;>
      simp [LRUCacheState.stepOp, LRUCacheState.get, h, LRUCacheState.updateAccessOrder]
  | set k v =>
    show (LRUCacheState.set s k v).capacity = s.capacity
    rw [LRUCacheState.set]
    show (s.evictIfFull k).capacity = s.capacity
    rw [LRUCacheState.evictIfFull]
    split
    · cases h : s.accessOrder <;> simp [h]
    · rfl

set_option maxHeartbeats 1600000 in
/-- One operation preserves the LRU invariant. -/
theorem LRUTrace.step_inv (t : LRUTrace) (op : LRUOp)
    (hcap : 1 ≤ t.state.capacity) (h : LRUInv t) : LRUInv (t.step op) := by
  obtain ⟨hnd, hsync, hknd, hlen, hle, hpw, hbound⟩ := h
  have hkeylen : (t.state.cache.map Prod.fst).length = t.state.cache.length :=
    List.length_map _ _
  cases op with
  | get k =>
    by_cases hk : (t.state.cache.lookup k).isSome
    · obtain ⟨v, hv⟩ := Option.isSome_iff_exists.mp hk
      have hst : (t.step (LRUOp.get k)).state = t.state.updateAccessOrder k := by
        show t.state.stepOp (LRUOp.get k) = _
        simp [LRUCacheState.stepOp, LRUCacheState.get, hv]
      have hlt : (t.step (LRUOp.get k)).lastTouches = (k, t.clock) :: t.lastTouches := by
        show (match t.state.touchOf (LRUOp.get k) with
          | some k2 => (k2, t.clock) :: t.lastTouches
          | none => t.lastTouches) = _
        simp [LRUCacheState.touchOf, hk]
      have hkin : k ∈ t.state.accessOrder := (hsync k).mpr hk
      refine ⟨?_, ?_, ?_, ?_, ?_, ?_, ?_⟩ <;>
        rw [hst] <;> simp only [LRUCacheState.updateAccessOrder] <;> try rw [hlt]
      · exact nodup_touch _ k hnd
      · intro x
        rw [mem_touch _ k x hnd]
        by_cases hx : x = k
        · subst hx
          simp [hk]
        · simp [hx, hsync x]
      · exact hknd
      · rw [length_touch_of_mem _ k hkin]
        exact hlen
      · exact hle
      · exact pairwise_touch t.lastTouches t.clock _ k hnd hpw hbound
      · show ∀ x ∈ _, _ < t.clock + 1
        exact bound_touch t.lastTouches t.clock _ k hnd hbound
    · have hv : t.state.cache.lookup k = none := Option.not_isSome_iff_eq_none.mp hk
      have hst : (t.step (LRUOp.get k)).state = t.state := by
        show t.state.stepOp (LRUOp.get k) = _
        simp [LRUCacheState.stepOp, LRUCacheState.get, hv]
      have hlt : (t.step (LRUOp.get k)).lastTouches = t.lastTouches := by
        show (match t.state.touchOf (LRUOp.get k) with
          | some k2 => (k2, t.clock) :: t.lastTouches
          | none => t.lastTouches) = _
        simp [LRUCacheState.touchOf, hk]
      refine ⟨?_, ?_, ?_, ?_, ?_, ?_, ?_⟩ <;> rw [hst] <;> try rw [hlt]
      · exact hnd
      · exact hsync
      · exact hknd
      · exact hlen
      · exact hle
      · exact hpw
      · intro x hx
        have := hbound x hx
        show _ < t.clock + 1
        omega
  | set k v =>
    have hlt : (t.step (LRUOp.set k v)).lastTouches = (k, t.clock) :: t.lastTouches := by
      show (match t.state.touchOf (LRUOp.set k v) with
        | some k2 => (k2, t.clock) :: t.lastTouches
        | none => t.lastTouches) = _
      simp [LRUCacheState.touchOf]
    by_cases hk : (t.state.cache.lookup k).isSome
    · -- key present: no eviction, in-place value update
      have hcond : ¬ (t.state.capacity ≤ t.state.cache.length ∧
          (t.state.cache.lookup k).isNone = true) := by
        intro hc
        rw [Option.isNone_iff_eq_none] at hc
        rw [hc.2] at hk
        simp at hk
      have hE : t.state.evictIfFull k = t.state := by
        rw [LRUCacheState.evictIfFull, if_neg hcond]
      have hst : (t.step (LRUOp.set k v)).state =
          { capacity := t.state.capacity,
            cache := jsAssocSet t.state.cache k v,
            accessOrder := t.state.accessOrder.erase k ++ [k] } := by
        show t.state.set k v = _
        rw [LRUCacheState.set, hE]
        rfl
      have hkin : k ∈ t.state.accessOrder := (hsync k).mpr hk
      have hkeys : (jsAssocSet t.state.cache k v).map Prod.fst =
          t.state.cache.map Prod.fst := jsAssocSet_keys_present _ _ _ hk
      have hclen : (jsAssocSet t.state.cache k v).length = t.state.cache.length := by
        have h1 := List.length_map (jsAssocSet t.state.cache k v) Prod.fst
        rw [hkeys] at h1
        rw [← h1, hkeylen]
      refine ⟨?_, ?_, ?_, ?_, ?_, ?_, ?_⟩ <;> rw [hst] <;> try rw [hlt]
      · exact nodup_touch _ k hnd
      · intro x
        show x ∈ _ ↔ ((jsAssocSet t.state.cache k v).lookup x).isSome
        rw [mem_touch _ k x hnd]
        by_cases hx : x = k
        · subst hx
          simp [jsAssocSet_lookup_self]
        · rw [jsAssocSet_lookup_ne _ _ _ _ hx]
          simp [hx, hsync x]
      · show ((jsAssocSet t.state.cache k v).map Prod.fst).Nodup
        rw [hkeys]
        exact hknd
      · show (t.state.accessOrder.erase k ++ [k]).length =
          (jsAssocSet t.state.cache k v).length
        rw [length_touch_of_mem _ k hkin, hclen]
        exact hlen
      · show (jsAssocSet t.state.cache k v).length ≤ t.state.capacity
        rw [hclen]
        exact hle
      · exact pairwise_touch t.lastTouches t.clock _ k hnd hpw hbound
      · show ∀ x ∈ _, _ < t.clock + 1
        exact bound_touch t.lastTouches t.clock _ k hnd hbound
    · have hnone : t.state.cache.lookup k = none := Option.not_isSome_iff_eq_none.mp hk
      have hknotin : k ∉ t.state.accessOrder := fun hmem => hk ((hsync k).mp hmem)
      have hknotkeys : k ∉ t.state.cache.map Prod.fst := by
        rw [← lookup_isSome_iff_mem_keys]
        exact hk
      by_cases hfull : t.state.capacity ≤ t.state.cache.length
      · -- at capacity: evict the head of the access order
        have haolen : t.state.accessOrder.length = t.state.cache.length := hlen
        have haopos : 0 < t.state.accessOrder.length := by omega
        obtain ⟨e, rest, hao⟩ : ∃ e rest, t.state.accessOrder = e :: rest := by
          cases hc : t.state.accessOrder with
          | nil => rw [hc] at haopos; simp at haopos
          | cons e rest => exact ⟨e, rest, rfl⟩
        have hein : e ∈ t.state.accessOrder := by rw [hao]; simp
        have hesome : (t.state.cache.lookup e).isSome := (hsync e).mp hein
        have hekeys : e ∈ t.state.cache.map Prod.fst :=
          (lookup_isSome_iff_mem_keys _ e).mp hesome
        have hkne : k ≠ e := by
          intro hx
          rw [hx] at hk
          exact hk hesome
        have hknotrest : k ∉ rest := by
          intro hx
          exact hknotin (by rw [hao]; simp [hx])
        have hnd_rest : rest.Nodup := by
          rw [hao] at hnd
          exact hnd.of_cons
        have henotrest : e ∉ rest := by
          rw [hao] at hnd
          exact (List.nodup_cons.mp hnd).1
        have hcond : t.state.capacity ≤ t.state.cache.length ∧
            (t.state.cache.lookup k).isNone = true := by
          refine ⟨hfull, ?_⟩
          rw [Option.isNone_iff_eq_none]
          exact hnone
        have hE : t.state.evictIfFull k =
            { t.state with cache := jsAssocDelete t.state.cache e,
                           accessOrder := rest } := by
          rw [LRUCacheState.evictIfFull, if_pos hcond, hao]
        have hst : (t.step (LRUOp.set k v)).state =
            { capacity := t.state.capacity,
              cache := jsAssocSet (jsAssocDelete t.state.cache e) k v,
              accessOrder := rest.erase k ++ [k] } := by
          show t.state.set k v = _
          rw [LRUCacheState.set, hE]
          rfl
        have hdel_lookup_k : (jsAssocDelete t.state.cache e).lookup k = none := by
          rw [jsAssocDelete_lookup_ne e k hkne]
          exact hnone
        have hdel_keys : (jsAssocDelete t.state.cache e).map Prod.fst =
            (t.state.cache.map Prod.fst).erase e := by
          rw [jsAssocDelete_keys, List.Nodup.erase_eq_filter hknd e]
          refine List.filter_congr ?_
          intro x _
          by_cases hxe : x = e <;> simp [hxe]
        have hset_keys : (jsAssocSet (jsAssocDelete t.state.cache e) k v).map Prod.fst =
            (t.state.cache.map Prod.fst).erase e ++ [k] := by
          rw [jsAssocSet_keys_absent _ _ _ (by simp [hdel_lookup_k]), hdel_keys]
        have hkeylen2 : ((t.state.cache.map Prod.fst).erase e).length =
            t.state.cache.length - 1 := by
          rw [List.length_erase_of_mem hekeys, hkeylen]
        have hclen : (jsAssocSet (jsAssocDelete t.state.cache e) k v).length =
            t.state.cache.length := by
          have h1 := List.length_map (jsAssocSet (jsAssocDelete t.state.cache e) k v)
            Prod.fst
          rw [hset_keys] at h1
          rw [← h1]
          simp only [List.length_append, hkeylen2, List.length_singleton]
          omega
        have hkerase : rest.erase k = rest := List.erase_of_not_mem hknotrest
        refine ⟨?_, ?_, ?_, ?_, ?_, ?_, ?_⟩ <;> rw [hst] <;> try rw [hlt]
        · show (rest.erase k ++ [k]).Nodup
          exact nodup_touch rest k hnd_rest
        · intro x
          show x ∈ _ ↔ ((jsAssocSet (jsAssocDelete t.state.cache e) k v).lookup x).isSome
          rw [mem_touch rest k x hnd_rest]
          by_cases hx : x = k
          · subst hx
            simp [jsAssocSet_lookup_self]
          · rw [jsAssocSet_lookup_ne _ _ _ _ hx]
            by_cases hxe : x = e
            · subst hxe
              rw [jsAssocDelete_lookup_self]
              simp [henotrest, Ne.symm hkne]
            · rw [jsAssocDelete_lookup_ne e x hxe]
              have hx1 : x ∈ rest ↔ x ∈ t.state.accessOrder := by
                rw [hao]
                simp [hxe]
              rw [hx1]
              simp [hx, hsync x]
        · show ((jsAssocSet (jsAssocDelete t.state.cache e) k v).map Prod.fst).Nodup
          rw [hset_keys]
          refine List.Nodup.append (hknd.erase e) (List.nodup_singleton k) ?_
          intro a ha hb
          have ha2 : a ∈ t.state.cache.map Prod.fst :=
            List.mem_of_mem_erase ha
          have hb2 : a = k := by simpa using hb
          rw [hb2] at ha2
          exact hknotkeys ha2
        · show (rest.erase k ++ [k]).length =
            (jsAssocSet (jsAssocDelete t.state.cache e) k v).length
          rw [hkerase, hclen]
          simp only [List.length_append, List.length_singleton]
          have : rest.length + 1 = t.state.cache.length := by
            rw [← haolen, hao]
            simp
          omega
        · show (jsAssocSet (jsAssocDelete t.state.cache e) k v).length ≤ t.state.capacity
          rw [hclen]
          exact hle
        · show (rest.erase k ++ [k]).Pairwise _
          refine pairwise_touch t.lastTouches t.clock rest k hnd_rest ?_ ?_
          · rw [hao] at hpw
            exact hpw.of_cons
          · intro x hx
            exact hbound x (by rw [hao]; simp [hx])
        · show ∀ x ∈ rest.erase k ++ [k], _ < t.clock + 1
          refine bound_touch t.lastTouches t.clock rest k hnd_rest ?_
          intro x hx
          exact hbound x (by rw [hao]; simp [hx])
      · -- below capacity: plain append
        have hcond : ¬ (t.state.capacity ≤ t.state.cache.length ∧
            (t.state.cache.lookup k).isNone = true) := by
          intro hc
          exact hfull hc.1
        have hE : t.state.evictIfFull k = t.state := by
          rw [LRUCacheState.evictIfFull, if_neg hcond]
        have hst : (t.step (LRUOp.set k v)).state =
            { capacity := t.state.capacity,
              cache := jsAssocSet t.state.cache k v,
              accessOrder := t.state.accessOrder.erase k ++ [k] } := by
          show t.state.set k v = _
          rw [LRUCacheState.set, hE]
          rfl
        have hkeys : (jsAssocSet t.state.cache k v).map Prod.fst =
            t.state.cache.map Prod.fst ++ [k] := jsAssocSet_keys_absent _ _ _ hk
        have hclen : (jsAssocSet t.state.cache k v).length =
            t.state.cache.length + 1 := by
          have h1 := List.length_map (jsAssocSet t.state.cache k v) Prod.fst
          rw [hkeys] at h1
          rw [← h1]
          simp [hkeylen]
        have hkerase : t.state.accessOrder.erase k = t.state.accessOrder :=
          List.erase_of_not_mem hknotin
        refine ⟨?_, ?_, ?_, ?_, ?_, ?_, ?_⟩ <;> rw [hst] <;> try rw [hlt]
        · exact nodup_touch _ k hnd
        · intro x
          show x ∈ _ ↔ ((jsAssocSet t.state.cache k v).lookup x).isSome
          rw [mem_touch _ k x hnd]
          by_cases hx : x = k
          · subst hx
            simp [jsAssocSet_lookup_self]
          · rw [jsAssocSet_lookup_ne _ _ _ _ hx]
            simp [hx, hsync x]
        · show ((jsAssocSet t.state.cache k v).map Prod.fst).Nodup
          rw [hkeys]
          refine List.Nodup.append hknd (List.nodup_singleton k) ?_
          intro a ha hb
          have hb2 : a = k := by simpa using hb
          rw [hb2] at ha
          exact hknotkeys ha
        · show (t.state.accessOrder.erase k ++ [k]).length =
            (jsAssocSet t.state.cache k v).length
          rw [hkerase, hclen]
          simp [hlen]
        · show (jsAssocSet t.state.cache k v).length ≤ t.state.capacity
          rw [hclen]
          omega
        · exact pairwise_touch t.lastTouches t.clock _ k hnd hpw hbound
        · show ∀ x ∈ _, _ < t.clock + 1
          exact bound_touch t.lastTouches t.clock _ k hnd hbound

theorem LRUTrace.init_inv (cap : ℕ) : LRUInv (LRUTrace.init cap) := by
  refine ⟨?_, ?_, ?_, ?_, ?_, ?_, ?_⟩ <;>
    simp [LRUTrace.init, LRUInv, List.lookup]

theorem LRUTrace.run_inv (cap : ℕ) (hcap : 1 ≤ cap) (ops : List LRUOp) :
    LRUInv (LRUTrace.run cap ops) ∧ (LRUTrace.run cap ops).state.capacity = cap := by
  suffices h : ∀ (t : LRUTrace), LRUInv t → t.state.capacity = cap →
      LRUInv (ops.foldl LRUTrace.step t) ∧
        (ops.foldl LRUTrace.step t).state.capacity = cap by
    exact h (LRUTrace.init cap) (LRUTrace.init_inv cap) rfl
  induction ops with
  | nil =>
    intro t ht hc
    exact ⟨ht, hc⟩
  | cons op rest ih =>
    intro t ht hc
    have h1 := LRUTrace.step_inv t op (by omega) ht
    have h2 : (t.step op).state.capacity = cap := by
      show (t.state.stepOp op).capacity = cap
      rw [LRUCacheState.stepOp_capacity]
      exact hc
    exact ih (t.step op) h1 h2

/-- C5: over every sequence of `get`/`set` operations against an LRU cache
of capacity at least 1 (the source constructors' `|| 1000` / `|| 50`
defaults make a zero capacity unreachable): the cache size never exceeds
the capacity; whenever a `set` at capacity evicts a key, the evicted key
(the head of `accessOrder`) was touched less recently than every other
cached key; and every `set`, and every `get` hit, moves the touched key to
the most-recently-used end of the access order. -/
theorem lru_bound_eviction_mru (cap : ℕ) (hcap : 1 ≤ cap) (ops : List LRUOp) :
    (LRUTrace.run cap ops).state.cache.length ≤ cap ∧
    (∀ k e, (LRUTrace.run cap ops).state.evictedKey k = some e →
      ∀ k2, ((LRUTrace.run cap ops).state.cache.lookup k2).isSome → k2 ≠ e →
        lastTouchTime (LRUTrace.run cap ops).lastTouches e <
          lastTouchTime (LRUTrace.run cap ops).lastTouches k2) ∧
    (∀ k v, (((LRUTrace.run cap ops).state.set k v).accessOrder).getLast? = some k) ∧
    (∀ k, ((LRUTrace.run cap ops).state.cache.lookup k).isSome →
      (((LRUTrace.run cap ops).state.get k).2.accessOrder).getLast? = some k) := by
  obtain ⟨⟨hnd, hsync, hknd, hlen, hle, hpw, hbound⟩, hc⟩ := LRUTrace.run_inv cap hcap ops
  refine ⟨le_trans hle (le_of_eq hc), ?_, ?_, ?_⟩
  · intro k e hev k2 hk2 hne
    rw [LRUCacheState.evictedKey] at hev
    by_cases hcond : (LRUTrace.run cap ops).state.capacity ≤
        (LRUTrace.run cap ops).state.cache.length ∧
        ((LRUTrace.run cap ops).state.cache.lookup k).isNone = true
    · rw [if_pos hcond] at hev
      obtain ⟨rest, hao⟩ : ∃ rest,
          (LRUTrace.run cap ops).state.accessOrder = e :: rest := by
        cases hc2 : (LRUTrace.run cap ops).state.accessOrder with
        | nil => rw [hc2] at hev; simp at hev
        | cons a rest =>
          rw [hc2] at hev
          simp at hev
          exact ⟨rest, by rw [hev]⟩
      have hk2in : k2 ∈ (LRUTrace.run cap ops).state.accessOrder := (hsync k2).mpr hk2
      rw [hao] at hk2in
      have hk2rest : k2 ∈ rest := by
        rcases List.mem_cons.mp hk2in with h | h
        · exact absurd h hne
        · exact h
      rw [hao, List.pairwise_cons] at hpw
      exact hpw.1 k2 hk2rest
    · rw [if_neg hcond] at hev
      simp at hev
  · intro k v
    exact set_accessOrder_getLast _ k v
  · intro k hk
    obtain ⟨v, hv⟩ := Option.isSome_iff_exists.mp hk
    show ((((LRUTrace.run cap ops).state.get k)).2.accessOrder).getLast? = some k
    rw [LRUCacheState.get]
    rw [hv]
    simp [LRUCacheState.updateAccessOrder, List.getLast?_append]

/-- Witness for C5, on the spec's own example: capacity 2, insert keys 1
and 2, touch 1 — the next insert of a fresh key 3 would evict key 2, which
is indeed the least recently touched cached key. -/
theorem lru_bound_eviction_mru_witness :
    (LRUTrace.run 2 [.set 1 10, .set 2 20, .get 1]).state.evictedKey 3 = some 2 ∧
    lastTouchTime (LRUTrace.run 2 [.set 1 10, .set 2 20, .get 1]).lastTouches 2 <
      lastTouchTime (LRUTrace.run 2 [.set 1 10, .set 2 20, .get 1]).lastTouches 1 := by
  refine ⟨by decide, ?_⟩
  refine (lru_bound_eviction_mru 2 (by decide) [.set 1 10, .set 2 20, .get 1]).2.1
    3 2 (by decide) 1 (by decide) (by decide)
